import Mathlib

/-!
# isucon5-go: access control, caches and timeline helpers of `app.go`

A shallow embedding of the parts of `src/app.go` that decide who may see what:
the identity cache (`getUser`, `getCurrentUser`), the friendship oracle
(`isFriend`, `getOrderedOneAnotherId`, `PostFriends`), the permission guard
(`permitted`), the entry/comment handlers that apply it (`GetEntry`,
`PostComment`), the body split used for every entry row, the friend list
built by `GetIndex` and `GetFriends`, the own-entries section of `GetIndex`,
`PostEntry`, and the recovery of `myHandler`.

Conventions of the embedding

* Go `int` is `Int`; no arithmetic is done on identifiers, so no overflow arises.
* Go `string` is `String`; the separator `"\n"` is the single character `'\n'`.
* `time.Time` is an integer instant.
* The process-wide variables `db` and `ca` and the clock form the `World`; the
  request-scoped `context` value `"user"` is the extra field of `St`.  A handler
  starts with an empty request context and hands back the `World`.
* `checkErr`/`panic` is an `Except Panic` result; state written before the panic
  is kept, as it is in Go.
* `github.com/patrickmn/go-cache` is a library outside the repository; `Cache`
  follows its `Get`/`Set`: an item carries an absolute expiration instant, `0`
  meaning that it never expires.
* The relational schema is outside the repository.  Tables are lists of rows in
  insertion order, `QueryRow` takes the first matching row, `INSERT` appends, and
  store communication never fails.
-/

set_option linter.dupNamespace false

namespace Isucon5

/-! ## Data model (app.go:32-87) -/

/-- Go `time.Time`, an integer instant. -/
abbrev Time := Int

/-- `type User struct` (app.go:32). -/
structure User where
  ID : Int
  AccountName : String
  NickName : String
  Email : String
deriving DecidableEq, Repr

/-- `type Entry struct` (app.go:49). -/
structure Entry where
  ID : Int
  UserID : Int
  Private : Bool
  Title : String
  Content : String
  CreatedAt : Time
deriving DecidableEq, Repr

/-- `type Comment struct` (app.go:58). -/
structure Comment where
  ID : Int
  EntryID : Int
  UserID : Int
  Comment : String
  CreatedAt : Time
deriving DecidableEq, Repr

/-- `type Friend struct` (app.go:66). -/
structure Friend where
  ID : Int
  CreatedAt : Time
deriving DecidableEq, Repr

/-- Values a handler can panic with: the three sentinel errors of app.go:83-87
and a Go runtime error (index out of range, failed type assertion, nil
dereference). -/
inductive Panic where
  | ErrAuthentication
  | ErrPermissionDenied
  | ErrContentNotFound
  | runtimeError
deriving DecidableEq, Repr

/-! ## The store -/

/-- A row of `users`, the five columns scanned by `SELECT * FROM users`. -/
structure UserRow where
  id : Int
  account_name : String
  nick_name : String
  email : String
  passhash : String
deriving DecidableEq, Repr

/-- A row of `relations`: the columns the code reads or writes. -/
structure RelationRow where
  one : Int
  another : Int
  created_at : Time
deriving DecidableEq, Repr

/-- A row of `entries`, the five columns scanned by `SELECT * FROM entries`. -/
structure EntryRow where
  id : Int
  user_id : Int
  priv : Int
  body : String
  created_at : Time
deriving DecidableEq, Repr

/-- A row of `comments`, the five columns scanned by `SELECT * FROM comments`. -/
structure CommentRow where
  id : Int
  entry_id : Int
  user_id : Int
  comment : String
  created_at : Time
deriving DecidableEq, Repr

/-- A row of `footprints`: the columns the code reads or writes. -/
structure FootprintRow where
  user_id : Int
  owner_id : Int
  created_at : Time
deriving DecidableEq, Repr

/-- The backing store behind the global `db`. -/
structure DB where
  users : List UserRow
  relations : List RelationRow
  entries : List EntryRow
  comments : List CommentRow
  footprints : List FootprintRow
deriving DecidableEq, Repr

/-! ## go-cache -/

/-- What the code stores in the cache: a `User` (`getUser`, `getCurrentUser`)
or the integer `1` (`isFriend`). -/
inductive CacheVal where
  | user (u : User)
  | int (n : Int)
deriving DecidableEq, Repr

/-- The `cache.Item` of go-cache: the object and its expiration instant, `0` for none. -/
structure Item where
  Object : CacheVal
  Expiration : Int
deriving DecidableEq, Repr

/-- The `cache.Cache` of go-cache: the default time-to-live and the item map. -/
structure Cache where
  defaultExpiration : Int
  items : String → Option Item

/-- The constant `cache.NoExpiration`. -/
def NoExpiration : Int := -1

/-- The constant `cache.DefaultExpiration`. -/
def DefaultExpiration : Int := 0

/-- The lookup `ca.Get(k)`: an item is found unless it is absent or its expiration
instant is positive and has passed. -/
def Cache.Get (c : Cache) (k : String) (now : Time) : Option CacheVal :=
  match c.items k with
  | none => none
  | some item =>
    if item.Expiration > 0 ∧ now > item.Expiration then none else some item.Object

/-- The write `ca.Set(k, x, d)`: a positive duration gives the expiration instant
`now + d`, any other duration gives `0` (never expires). -/
def Cache.Set (c : Cache) (k : String) (x : CacheVal) (d : Int) (now : Time) : Cache :=
  let d1 := if d = DefaultExpiration then c.defaultExpiration else d
  let e := if d1 > 0 then now + d1 else 0
  { c with items := fun k1 => if k1 = k then some ⟨x, e⟩ else c.items k1 }

/-! ## State -/

/-- The process-wide state: store, cache and clock. -/
structure World where
  db : DB
  ca : Cache
  now : Time

/-- The state seen inside one request: the world and the request-scoped context
value `"user"` (gorilla `context.Get(r, "user")`). -/
structure St extends World where
  ctx : Option User

/-! ## strconv.Itoa -/

/-- The digit loop of `strconv.Itoa`: the decimal digits of `n` are put in front of
`acc`, least significant digit first. -/
def formatBits : Nat → Nat → List Char → List Char
  | 0, _, acc => acc
  | fuel + 1, n, acc =>
    if n / 10 = 0 then Nat.digitChar (n % 10) :: acc
    else formatBits fuel (n / 10) (Nat.digitChar (n % 10) :: acc)

/-- The conversion `strconv.Itoa`: decimal digits, with a leading `-` for a negative number. -/
def Itoa (i : Int) : String :=
  if i < 0 then String.mk ('-' :: formatBits (i.natAbs + 1) i.natAbs [])
  else String.mk (formatBits (i.natAbs + 1) i.natAbs [])

/-! ## Friendship oracle (app.go:185-211, 765-776) -/

/-- The function `getOrderedOneAnotherId` (app.go:766). -/
def getOrderedOneAnotherId (userIdOne userIdTwo : Int) : Int × Int :=
  if userIdOne < userIdTwo then (userIdOne, userIdTwo) else (userIdTwo, userIdOne)

/-- The cache key built in `isFriend` (app.go:190). -/
def friendKey (oneId anotherId : Int) : String :=
  "isFrined_" ++ Itoa oneId ++ "_" ++ Itoa anotherId

/-- The query `SELECT COUNT(1) AS cnt FROM relations WHERE (one = ? AND another = ?)`. -/
def countRelations (db : DB) (oneId anotherId : Int) : Nat :=
  (db.relations.filter (fun r => r.one = oneId ∧ r.another = anotherId)).length

/-- The function `isFriend` (app.go:185).  `sess` is `session.Values["user_id"]`; the type
assertion `.(int)` panics when it is absent. -/
def isFriend (sess : Option Int) (anotherID : Int) (s : St) : Except Panic Bool × St :=
  match sess with
  | none => (.error .runtimeError, s)
  | some id =>
    let p := getOrderedOneAnotherId id anotherID
    let key := friendKey p.1 p.2
    match s.ca.Get key s.now with
    | some _ => (.ok true, s)
    | none =>
      if countRelations s.db p.1 p.2 > 0 then
        (.ok true, { s with ca := s.ca.Set key (.int 1) NoExpiration s.now })
      else (.ok false, s)

/-! ## Identity cache (app.go:108-183) -/

/-- The scan of a `users` row into a `User` (the password hash goes to `new(string)`). -/
def userOfRow (r : UserRow) : User :=
  ⟨r.id, r.account_name, r.nick_name, r.email⟩

/-- The function `getCurrentUser` (app.go:108).  The result `none` is Go's `nil`: the
session holds no `user_id`.  The response header `Userid` is not part of the state. -/
def getCurrentUser (sess : Option Int) (s : St) : Except Panic (Option User) × St :=
  match s.ctx with
  | some u => (.ok (some u), s)
  | none =>
    match sess with
    | none => (.ok none, s)
    | some userID =>
      let key := "userid-" ++ Itoa userID
      match s.ca.Get key s.now with
      | some (.user u) => (.ok (some u), s)
      | some (.int _) => (.error .runtimeError, s)
      | none =>
        match s.db.users.find? (fun r => r.id = userID) with
        | none => (.error .ErrAuthentication, s)
        | some row =>
          (.ok (some (userOfRow row)),
            { s with ctx := some (userOfRow row),
                     ca := s.ca.Set key (.user (userOfRow row)) NoExpiration s.now })

/-- The function `authenticated` (app.go:144); `false` is the redirect to `/login`. -/
def authenticated (sess : Option Int) (s : St) : Except Panic Bool × St :=
  match getCurrentUser sess s with
  | (.error e, s1) => (.error e, s1)
  | (.ok none, s1) => (.ok false, s1)
  | (.ok (some _), s1) => (.ok true, s1)

/-- The function `getUser` (app.go:153). -/
def getUser (userID : Int) (s : St) : Except Panic User × St :=
  let key := "user" ++ Itoa userID
  match s.ca.Get key s.now with
  | some (.user u) => (.ok u, s)
  | some (.int _) => (.error .runtimeError, s)
  | none =>
    match s.db.users.find? (fun r => r.id = userID) with
    | none => (.error .ErrContentNotFound, s)
    | some row =>
      (.ok (userOfRow row),
        { s with ca := s.ca.Set key (.user (userOfRow row)) NoExpiration s.now })

/-- The function `getUserFromAccount` (app.go:174); it reads the store only. -/
def getUserFromAccount (name : String) (db : DB) : Except Panic User :=
  match db.users.find? (fun r => r.account_name = name) with
  | none => .error .ErrContentNotFound
  | some row => .ok (userOfRow row)

/-- The function `isFriendAccount` (app.go:213).  `getUserFromAccount` never returns `nil`,
so the `user == nil` branch is never taken. -/
def isFriendAccount (sess : Option Int) (name : String) (s : St) : Except Panic Bool × St :=
  match getUserFromAccount name s.db with
  | .error e => (.error e, s)
  | .ok user => isFriend sess user.ID s

/-! ## Permission guard and footprints (app.go:221-235) -/

/-- The function `permitted` (app.go:221); `user.ID` on a `nil` user is a runtime panic. -/
def permitted (sess : Option Int) (anotherID : Int) (s : St) : Except Panic Bool × St :=
  match getCurrentUser sess s with
  | (.error e, s1) => (.error e, s1)
  | (.ok none, s1) => (.error .runtimeError, s1)
  | (.ok (some user), s1) =>
    if anotherID = user.ID then (.ok true, s1) else isFriend sess anotherID s1

/-- Modelled from the spec: the key of the `footprints` table is not in the repository.
The statement `replace INTO footprints (user_id,owner_id,created_at) VALUES (?,?, now())`
upserts the record of the pair, replacing any prior record of that exact pair. -/
def replaceFootprint (fps : List FootprintRow) (user_id owner_id : Int) (now : Time) :
    List FootprintRow :=
  fps.filter (fun f => ¬ (f.user_id = user_id ∧ f.owner_id = owner_id))
    ++ [⟨user_id, owner_id, now⟩]

/-- The function `markFootprint` (app.go:229): the visited id is written to `user_id`, the
visitor to `owner_id`. -/
def markFootprint (sess : Option Int) (id : Int) (s : St) : Except Panic Unit × St :=
  match getCurrentUser sess s with
  | (.error e, s1) => (.error e, s1)
  | (.ok none, s1) => (.error .runtimeError, s1)
  | (.ok (some user), s1) =>
    if user.ID ≠ id then
      (.ok (), { s1 with db := { s1.db with
        footprints := replaceFootprint s1.db.footprints id user.ID s1.now } })
    else (.ok (), s1)

/-! ## Body split (app.go:308, 365, 410, 523, 586, 614, 680) -/

/-- The search `strings.Index(s, "\n")` on the characters of `s`. -/
def indexNewline : List Char → Option Nat
  | [] => none
  | c :: cs => if c = '\n' then some 0 else (indexNewline cs).map (· + 1)

/-- The call `strings.SplitN(s, "\n", 2)`: one piece when there is no separator, else the
text before the first separator and the text after it. -/
def SplitN2 (s : String) : List String :=
  match indexNewline s.data with
  | none => [s]
  | some m => [String.mk (s.data.take m), String.mk (s.data.drop (m + 1))]

/-- The two indexings `strings.SplitN(body, "\n", 2)[0]` and `[1]`; an index out of range
is a runtime panic. -/
def splitBody (body : String) : Except Panic (String × String) :=
  match (SplitN2 body)[0]?, (SplitN2 body)[1]? with
  | some title, some content => .ok (title, content)
  | _, _ => .error .runtimeError

/-- The literal `Entry{id, userID, private == 1, SplitN(..)[0], SplitN(..)[1], createdAt}`. -/
def entryFromRow (r : EntryRow) : Except Panic Entry :=
  match splitBody r.body with
  | .error e => .error e
  | .ok (title, content) => .ok ⟨r.id, r.user_id, r.priv == 1, title, content, r.created_at⟩

/-! ## Handlers (app.go:600-692, 749-763) -/

/-- What a handler writes to the response. -/
inductive Response where
  | redirect (location : String) (status : Nat)
  | entryPage (owner : User) (entry : Entry) (comments : List Comment)
  | empty
deriving DecidableEq, Repr

/-- The guard shared by `GetEntry` and `PostComment` (app.go:616-620, 682-686). -/
def checkEntryPermission (sess : Option Int) (entry : Entry) (owner : User) (s : St) :
    Except Panic Unit × St :=
  if entry.Private then
    match permitted sess owner.ID s with
    | (.error e, s1) => (.error e, s1)
    | (.ok true, s1) => (.ok (), s1)
    | (.ok false, s1) => (.error .ErrPermissionDenied, s1)
  else (.ok (), s)

/-- The scan of a `comments` row into a `Comment`. -/
def commentOfRow (r : CommentRow) : Comment :=
  ⟨r.id, r.entry_id, r.user_id, r.comment, r.created_at⟩

/-- The query `SELECT * FROM entries WHERE id = ?` followed by the entry literal; a missing
row is `ErrContentNotFound`.  The path variable `entry_id` is taken as the integer it
denotes. -/
def loadEntry (entryID : Int) (db : DB) : Except Panic Entry :=
  match db.entries.find? (fun r => r.id = entryID) with
  | none => .error .ErrContentNotFound
  | some row => entryFromRow row

/-- The handler `GetEntry` (app.go:600), up to the data handed to `render`. -/
def GetEntry (sess : Option Int) (entryID : Int) (w : World) : Except Panic Response × World :=
  match authenticated sess ⟨w, none⟩ with
  | (.error e, s1) => (.error e, s1.toWorld)
  | (.ok false, s1) => (.ok (.redirect "/login" 302), s1.toWorld)
  | (.ok true, s1) =>
    match loadEntry entryID s1.db with
    | .error e => (.error e, s1.toWorld)
    | .ok entry =>
      match getUser entry.UserID s1 with
      | (.error e, s2) => (.error e, s2.toWorld)
      | (.ok owner, s2) =>
        match checkEntryPermission sess entry owner s2 with
        | (.error e, s3) => (.error e, s3.toWorld)
        | (.ok _, s3) =>
          let comments :=
            (s3.db.comments.filter (fun c => c.entry_id = entry.ID)).map commentOfRow
          match markFootprint sess owner.ID s3 with
          | (.error e, s4) => (.error e, s4.toWorld)
          | (.ok _, s4) => (.ok (.entryPage owner entry comments), s4.toWorld)

/-- The statement `INSERT INTO comments (entry_id, user_id, comment) VALUES (?,?,?)`.  The
columns the schema fills are taken as: `id` one more than the greatest id present,
`created_at` the clock reading. -/
def insertComment (db : DB) (entry_id user_id : Int) (comment : String) (now : Time) : DB :=
  { db with comments := db.comments ++
      [⟨(db.comments.map (fun c => c.id)).foldl max 0 + 1, entry_id, user_id, comment, now⟩] }

/-- The handler `PostComment` (app.go:664). -/
def PostComment (sess : Option Int) (entryID : Int) (comment : String) (w : World) :
    Except Panic Response × World :=
  match authenticated sess ⟨w, none⟩ with
  | (.error e, s1) => (.error e, s1.toWorld)
  | (.ok false, s1) => (.ok (.redirect "/login" 302), s1.toWorld)
  | (.ok true, s1) =>
    match loadEntry entryID s1.db with
    | .error e => (.error e, s1.toWorld)
    | .ok entry =>
      match getUser entry.UserID s1 with
      | (.error e, s2) => (.error e, s2.toWorld)
      | (.ok owner, s2) =>
        match checkEntryPermission sess entry owner s2 with
        | (.error e, s3) => (.error e, s3.toWorld)
        | (.ok _, s3) =>
          match getCurrentUser sess s3 with
          | (.error e, s4) => (.error e, s4.toWorld)
          | (.ok none, s4) => (.error .runtimeError, s4.toWorld)
          | (.ok (some user), s4) =>
            (.ok (.redirect ("/diary/entry/" ++ Itoa entry.ID) 303),
              { s4.toWorld with db := insertComment s4.db entry.ID user.ID comment s4.now })

/-- The statement `INSERT INTO relations (one, another) VALUES (?,?), (?, ?)`: the two
mirrored rows, `created_at` being the clock reading. -/
def insertRelations (db : DB) (userID anotherID : Int) (now : Time) : DB :=
  { db with relations := db.relations ++ [⟨userID, anotherID, now⟩, ⟨anotherID, userID, now⟩] }

/-- The handler `PostFriends` (app.go:749). -/
def PostFriends (sess : Option Int) (anotherAccount : String) (w : World) :
    Except Panic Response × World :=
  match authenticated sess ⟨w, none⟩ with
  | (.error e, s1) => (.error e, s1.toWorld)
  | (.ok false, s1) => (.ok (.redirect "/login" 302), s1.toWorld)
  | (.ok true, s1) =>
    match getCurrentUser sess s1 with
    | (.error e, s2) => (.error e, s2.toWorld)
    | (.ok user, s2) =>
      match isFriendAccount sess anotherAccount s2 with
      | (.error e, s3) => (.error e, s3.toWorld)
      | (.ok true, s3) => (.ok .empty, s3.toWorld)
      | (.ok false, s3) =>
        match getUserFromAccount anotherAccount s3.db, user with
        | .error e, _ => (.error e, s3.toWorld)
        | .ok _, none => (.error .runtimeError, s3.toWorld)
        | .ok another, some user =>
          (.ok (.redirect "/friends" 303),
            { s3.toWorld with db := insertRelations s3.db user.ID another.ID s3.now })

/-! ## Friend list (app.go:439-456, 728-745) -/

/-- The order `ORDER BY created_at DESC` on rows `(another, created_at)`. -/
def newerFirst (r1 r2 : Int × Time) : Prop := r2.2 ≤ r1.2

instance newerFirstDecidable : DecidableRel newerFirst :=
  fun r1 r2 => inferInstanceAs (Decidable (r2.2 ≤ r1.2))

instance newerFirstTotal : IsTotal (Int × Time) newerFirst :=
  ⟨fun a b => le_total b.2 a.2⟩

instance newerFirstTrans : IsTrans (Int × Time) newerFirst :=
  ⟨fun _ _ _ hab hbc => le_trans hbc hab⟩

/-- The query `SELECT another, created_at FROM relations WHERE one = ? ORDER BY created_at
DESC` (app.go:439, 728).  The store is free in the order of rows with equal `created_at`;
here it is the one an insertion sort gives. -/
def friendRows (db : DB) (userID : Int) : List (Int × Time) :=
  ((db.relations.filter (fun r => r.one = userID)).map
    (fun r => (r.another, r.created_at))).insertionSort newerFirst

/-- One turn of the loop filling `friendsMap` (app.go:448-450, 737-739): an id already in
the map keeps its value.  The Go map is kept as an association list in insertion order. -/
def friendsStep (m : List (Int × Time)) (r : Int × Time) : List (Int × Time) :=
  if (m.lookup r.1).isSome then m else m ++ [r]

/-- The loop filling `friendsMap` from the rows `(another, created_at)` of the friend-list
query, in the order the query returns them. -/
def friendsMap (rows : List (Int × Time)) : List (Int × Time) :=
  rows.foldl friendsStep []

/-- The loop `for key, val := range friendsMap` building `friends`, in insertion order; Go
leaves the iteration order unspecified. -/
def friendsList (rows : List (Int × Time)) : List Friend :=
  (friendsMap rows).map (fun kv => ⟨kv.1, kv.2⟩)

/-! ## Own entries of the home page (app.go:355-367) -/

/-- The order `ORDER BY created_at` (ascending) on rows of `entries`. -/
def olderFirst (r1 r2 : EntryRow) : Prop := r1.created_at ≤ r2.created_at

instance olderFirstDecidable : DecidableRel olderFirst :=
  fun r1 r2 => inferInstanceAs (Decidable (r1.created_at ≤ r2.created_at))

instance olderFirstTotal : IsTotal EntryRow olderFirst :=
  ⟨fun a b => le_total a.created_at b.created_at⟩

instance olderFirstTrans : IsTrans EntryRow olderFirst :=
  ⟨fun _ _ _ hab hbc => le_trans hab hbc⟩

/-- The query `SELECT * FROM entries WHERE user_id = ? ORDER BY created_at LIMIT 5`
(app.go:355).  The store is free in the order of rows with equal `created_at`; here it is
the one an insertion sort gives. -/
def ownEntryRows (db : DB) (userID : Int) : List EntryRow :=
  ((db.entries.filter (fun r => r.user_id = userID)).insertionSort olderFirst).take 5

/-- The loop `for rows.Next()` appending the entry literal of each row (app.go:360-366); the
first row that does not decode panics. -/
def scanEntries : List EntryRow → Except Panic (List Entry)
  | [] => .ok []
  | r :: rs =>
    match entryFromRow r with
    | .error e => .error e
    | .ok entry =>
      match scanEntries rs with
      | .error e => .error e
      | .ok entries => .ok (entry :: entries)

/-- The slice `entries` that `GetIndex` hands to `render` for the user `userID`. -/
def ownEntries (db : DB) (userID : Int) : Except Panic (List Entry) :=
  scanEntries (ownEntryRows db userID)

/-! ## Posting an entry (app.go:642-662) -/

/-- The title `PostEntry` stores: the default when the form value is empty. -/
def entryTitle (title : String) : String :=
  if title = "" then "タイトルなし" else title

/-- The body `PostEntry` stores: `title+"\n"+content`. -/
def entryBody (title content : String) : String :=
  entryTitle title ++ "\n" ++ content

/-- The statement `INSERT INTO entries (user_id, private, body) VALUES (?,?,?)`.  The
columns the schema fills are taken as: `id` one more than the greatest id present,
`created_at` the clock reading. -/
def insertEntry (db : DB) (user_id priv : Int) (body : String) (now : Time) : DB :=
  { db with entries := db.entries ++
      [⟨(db.entries.map (fun e => e.id)).foldl max 0 + 1, user_id, priv, body, now⟩] }

/-- The handler `PostEntry` (app.go:642); `title`, `content` and `priv` are the form values
`title`, `content` and `private`. -/
def PostEntry (sess : Option Int) (title content priv : String) (w : World) :
    Except Panic Response × World :=
  match authenticated sess ⟨w, none⟩ with
  | (.error e, s1) => (.error e, s1.toWorld)
  | (.ok false, s1) => (.ok (.redirect "/login" 302), s1.toWorld)
  | (.ok true, s1) =>
    match getCurrentUser sess s1 with
    | (.error e, s2) => (.error e, s2.toWorld)
    | (.ok none, s2) => (.error .runtimeError, s2.toWorld)
    | (.ok (some user), s2) =>
      (.ok (.redirect ("/diary/entries/" ++ user.AccountName) 303),
        { s2.toWorld with
          db := insertEntry s2.db user.ID (if priv = "" then 0 else 1)
                  (entryBody title content) s2.now })

/-! ## Recovery (app.go:237-270) -/

/-- A Go `error` value as the `switch` of `myHandler` tells them apart: the three
sentinels of app.go:83-87, compared by identity, and any other error with its message. -/
inductive GoError where
  | ErrAuthentication
  | ErrPermissionDenied
  | ErrContentNotFound
  | other (msg : String)
deriving DecidableEq, Repr

/-- The method `Error()` of an error value; the sentinels carry the texts of app.go:84-86. -/
def GoError.Error : GoError → String
  | .ErrAuthentication => "Authentication error."
  | .ErrPermissionDenied => "Permission denied."
  | .ErrContentNotFound => "Content not found."
  | .other msg => msg

/-- A non-nil value returned by `recover()`: an `error` that is not a `runtime.Error`, a
`runtime.Error` (which is an `error` too), a `string`, or a value of any other type. -/
inductive Recovered where
  | error (e : GoError)
  | runtimeError (msg : String)
  | string (s : String)
  | value
deriving DecidableEq, Repr

/-- Whether the recovered value implements the interface `error`. -/
def Recovered.isError : Recovered → Bool
  | .error _ => true
  | .runtimeError _ => true
  | .string _ => false
  | .value => false

/-- The recovered value for a panic of the embedded handlers. -/
def Panic.toRecovered : Panic → Recovered
  | .ErrAuthentication => .error .ErrAuthentication
  | .ErrPermissionDenied => .error .ErrPermissionDenied
  | .ErrContentNotFound => .error .ErrContentNotFound
  | .runtimeError => .runtimeError "runtime error"

/-- The response call made by the deferred function of `myHandler`: `render(w, r, status,
file, struct{ Message string }{...})` or `http.Error(w, msg, status)`.  The templates are
outside the repository; `render` is followed up to this call. -/
inductive Reply where
  | render (status : Nat) (file : String) (message : String)
  | httpError (msg : String) (status : Nat)
deriving DecidableEq, Repr

/-- The status code of a reply. -/
def Reply.status : Reply → Nat
  | .render status _ _ => status
  | .httpError _ status => status

/-- The constants `http.StatusUnauthorized`, `http.StatusForbidden`, `http.StatusNotFound`
and `http.StatusInternalServerError`. -/
def StatusUnauthorized : Nat := 401

def StatusForbidden : Nat := 403

def StatusNotFound : Nat := 404

def StatusInternalServerError : Nat := 500

/-- The `switch` of the deferred function of `myHandler` (app.go:242-265) for a non-nil
recovered value.  The result carries the session value `user_id` afterwards: the
authentication case deletes it.  In the default case the unchecked assertion
`rcv.(error)` panics anew for a value that is no `error`. -/
def recovery (rcv : Recovered) (sess : Option Int) : Except Recovered Reply × Option Int :=
  match rcv with
  | .error .ErrAuthentication =>
    (.ok (.render StatusUnauthorized "login.html" "ログインに失敗しました"), none)
  | .error .ErrPermissionDenied =>
    (.ok (.render StatusForbidden "error.html" "友人のみしかアクセスできません"), sess)
  | .error .ErrContentNotFound =>
    (.ok (.render StatusNotFound "error.html" "要求されたコンテンツは存在しません"), sess)
  | .error e => (.ok (.httpError e.Error StatusInternalServerError), sess)
  | .runtimeError msg => (.ok (.httpError msg StatusInternalServerError), sess)
  | .string _ => (.error (.runtimeError "interface conversion: not error"), sess)
  | .value => (.error (.runtimeError "interface conversion: not error"), sess)

/-- The wrapper `myHandler` (app.go:237): `fn` runs, and when it panicked the deferred
function answers.  The left summand is what `fn` itself answered. -/
def myHandler {α : Type} (fn : World → Except Recovered α × World) (sess : Option Int)
    (w : World) : Except Recovered (α ⊕ Reply) × Option Int × World :=
  match fn w with
  | (.ok a, w1) => (.ok (.inl a), sess, w1)
  | (.error rcv, w1) =>
    match recovery rcv sess with
    | (.ok reply, sess1) => (.ok (.inr reply), sess1, w1)
    | (.error p, sess1) => (.error p, sess1, w1)

/-- An embedded handler as an argument of `myHandler`. -/
def wrapped (fn : World → Except Panic Response × World) (w : World) :
    Except Recovered Response × World :=
  match fn w with
  | (.ok a, w1) => (.ok a, w1)
  | (.error p, w1) => (.error p.toRecovered, w1)

/-! ## Sample states -/

/-- The empty cache with the five-minute default of `cache.New` (in nanoseconds). -/
def emptyCache : Cache := ⟨300000000000, fun _ => none⟩

/-- A store with the users 1 (`alice`) and 2 (`bob`), no relation, one private entry of
user 1 and no comment; the cache is empty and the clock reads 5. -/
def world0 : World :=
  ⟨⟨[⟨1, "alice", "Alice", "alice@example.com", "x"⟩, ⟨2, "bob", "Bob", "bob@example.com", "y"⟩],
    [], [⟨7, 1, 1, "Hello\nWorld", 3⟩], [], []⟩, emptyCache, 5⟩

/-- A store in which user 1 has six entries, created at the instants 1 to 6. -/
def sixEntries : DB :=
  ⟨[], [], [⟨1, 1, 0, "a\nx", 1⟩, ⟨2, 1, 0, "b\nx", 2⟩, ⟨3, 1, 0, "c\nx", 3⟩,
    ⟨4, 1, 0, "d\nx", 4⟩, ⟨5, 1, 0, "e\nx", 5⟩, ⟨6, 1, 0, "f\nx", 6⟩], [], []⟩

/-- The state `world0` with one relation row, the mirror row `(2, 1)` of the pair of the
users 1 and 2, and no row `(1, 2)`. -/
def mirrorOnly : World :=
  { world0 with db := { world0.db with relations := [⟨2, 1, 0⟩] } }

/-- The state `world0` with a cache that holds the friendship key of the pair `(1, 2)` with
the expiration instant 10, the clock reading 5. -/
def expiringKey : World :=
  { world0 with
    ca := ⟨300000000000, fun k => if k = "isFrined_1_2" then some ⟨.int 1, 10⟩ else none⟩ }

/-! ## Theorems -/

/-! ### Canonical pair -/

theorem ordered_eq_min_max (a b : Int) :
    getOrderedOneAnotherId a b = (min a b, max a b) := by
  unfold getOrderedOneAnotherId
  rcases lt_trichotomy a b with h | h | h
  · simp [h, min_eq_left h.le, max_eq_right h.le]
  · subst h
    simp
  · have h1 : ¬ a < b := not_lt.mpr h.le
    simp [h1, min_eq_right h.le, max_eq_left h.le]

theorem ordered_comm (a b : Int) :
    getOrderedOneAnotherId a b = getOrderedOneAnotherId b a := by
  rw [ordered_eq_min_max, ordered_eq_min_max, min_comm, max_comm]

/-- C7: `getOrderedOneAnotherId a b` is `(min a b, max a b)`; its first component is never
greater than its second, and the pair is the same for `(a, b)` and `(b, a)`. -/
theorem getOrderedOneAnotherId_min_max (a b : Int) :
    getOrderedOneAnotherId a b = (min a b, max a b)
    ∧ (getOrderedOneAnotherId a b).1 ≤ (getOrderedOneAnotherId a b).2
    ∧ getOrderedOneAnotherId a b = getOrderedOneAnotherId b a := by
  refine ⟨ordered_eq_min_max a b, ?_, ordered_comm a b⟩
  rw [ordered_eq_min_max]
  exact min_le_max

/-! ### Friendship oracle -/

/-- C1: with session user `a` and other user `b`, `isFriend` returns the same boolean as
with session user `b` and other user `a`, and both calls leave the same cache (indeed
the same state). -/
theorem isFriend_symmetric (s : St) (a b : Int) :
    (isFriend (some a) b s).1 = (isFriend (some b) a s).1
    ∧ (isFriend (some a) b s).2.ca = (isFriend (some b) a s).2.ca
    ∧ isFriend (some a) b s = isFriend (some b) a s := by
  have h : isFriend (some a) b s = isFriend (some b) a s := by
    simp only [isFriend, ordered_comm a b]
  exact ⟨by rw [h], by rw [h], h⟩

theorem isFriend_unfold (s : St) (id anotherID : Int) :
    isFriend (some id) anotherID s =
      match s.ca.Get (friendKey (min id anotherID) (max id anotherID)) s.now with
      | some _ => (.ok true, s)
      | none =>
        if countRelations s.db (min id anotherID) (max id anotherID) > 0 then
          (.ok true, { s with ca := (s.ca.Set
            (friendKey (min id anotherID) (max id anotherID)) (.int 1) NoExpiration s.now) })
        else (.ok false, s) := by
  simp only [isFriend, ordered_eq_min_max]

theorem countRelations_pos_iff (db : DB) (x y : Int) :
    countRelations db x y > 0 ↔ ∃ r ∈ db.relations, r.one = x ∧ r.another = y := by
  unfold countRelations
  rw [gt_iff_lt, List.length_pos_iff_exists_mem]
  constructor
  · rintro ⟨r, hr⟩
    rw [List.mem_filter] at hr
    exact ⟨r, hr.1, by simpa using hr.2⟩
  · rintro ⟨r, hr, h⟩
    exact ⟨r, List.mem_filter.mpr ⟨hr, by simpa using h⟩⟩

theorem Cache.Get_Set_same (c : Cache) (k : String) (x : CacheVal) (now t : Time) :
    (c.Set k x NoExpiration now).Get k t = some x := by
  simp [Cache.Get, Cache.Set, NoExpiration, DefaultExpiration]

theorem Cache.Get_Set_other (c : Cache) (k k1 : String) (x : CacheVal) (d now t : Time)
    (h : k1 ≠ k) : (c.Set k x d now).Get k1 t = c.Get k1 t := by
  simp [Cache.Get, Cache.Set, h]

/-- C8: on a cache miss `isFriend` returns true exactly when the store holds the directed
edge `(one = min, another = max)`; when it returns true the canonical key is afterwards in
the cache with expiration `0` (found at every later instant) and nothing else changes;
when it returns false the state, cache included, is exactly as it was. -/
theorem isFriend_miss (s : St) (id anotherID : Int)
    (hmiss : s.ca.Get (friendKey (min id anotherID) (max id anotherID)) s.now = none) :
    ((isFriend (some id) anotherID s).1 = .ok true ∨ (isFriend (some id) anotherID s).1 = .ok false)
    ∧ ((isFriend (some id) anotherID s).1 = .ok true ↔
        ∃ r ∈ s.db.relations, r.one = min id anotherID ∧ r.another = max id anotherID)
    ∧ ((isFriend (some id) anotherID s).1 = .ok true →
        (isFriend (some id) anotherID s).2.ca.items
            (friendKey (min id anotherID) (max id anotherID)) = some ⟨.int 1, 0⟩
        ∧ (∀ t, (isFriend (some id) anotherID s).2.ca.Get
            (friendKey (min id anotherID) (max id anotherID)) t = some (.int 1))
        ∧ (∀ k, k ≠ friendKey (min id anotherID) (max id anotherID) →
            (isFriend (some id) anotherID s).2.ca.items k = s.ca.items k)
        ∧ (isFriend (some id) anotherID s).2.db = s.db)
    ∧ ((isFriend (some id) anotherID s).1 = .ok false →
        (isFriend (some id) anotherID s).2 = s) := by
  rw [isFriend_unfold, hmiss]
  by_cases hc : countRelations s.db (min id anotherID) (max id anotherID) > 0
  · have hex := (countRelations_pos_iff s.db _ _).mp hc
    rw [if_pos hc]
    refine ⟨Or.inl rfl, ⟨fun _ => hex, fun _ => rfl⟩, fun _ => ⟨?_, ?_, ?_, rfl⟩, ?_⟩
    · simp [Cache.Set, NoExpiration, DefaultExpiration]
    · intro t
      exact Cache.Get_Set_same _ _ _ _ _
    · intro k hk
      simp [Cache.Set, hk]
    · intro h
      simp at h
  · have hex : ¬ ∃ r ∈ s.db.relations, r.one = min id anotherID ∧ r.another = max id anotherID :=
      fun h => hc ((countRelations_pos_iff s.db _ _).mpr h)
    rw [if_neg hc]
    refine ⟨Or.inr rfl, ⟨fun h => ?_, fun h => absurd h hex⟩, fun h => ?_, fun _ => rfl⟩
    · simp at h
    · simp at h

/-- C8 at a store holding the edge `(1, 2)` and an empty cache. -/
theorem isFriend_miss_witness :
    (isFriend (some 2) 1 ⟨⟨⟨[], [⟨1, 2, 0⟩], [], [], []⟩, emptyCache, 5⟩, none⟩).1 = .ok true
    ∧ (isFriend (some 2) 1 ⟨⟨⟨[], [⟨1, 2, 0⟩], [], [], []⟩, emptyCache, 5⟩, none⟩).2.ca.items
        (friendKey (min 2 1) (max 2 1)) = some ⟨.int 1, 0⟩ :=
  have h := isFriend_miss ⟨⟨⟨[], [⟨1, 2, 0⟩], [], [], []⟩, emptyCache, 5⟩, none⟩ 2 1 rfl
  ⟨h.2.1.mpr ⟨⟨1, 2, 0⟩, by simp, by decide, by decide⟩,
   (h.2.2.1 (h.2.1.mpr ⟨⟨1, 2, 0⟩, by simp, by decide, by decide⟩)).1⟩

/-! ### Cache keys -/

/-- The conversion `Itoa` on a few numbers. -/
theorem Itoa_samples :
    Itoa 0 = "0" ∧ Itoa 7 = "7" ∧ Itoa 120 = "120" ∧ Itoa (-45) = "-45"
    ∧ friendKey 1 2 = "isFrined_1_2" := by
  decide

theorem friendKey_ne_userid (x y n : Int) : friendKey x y ≠ "userid-" ++ Itoa n := by
  intro h
  have := congrArg String.data h
  simp [friendKey] at this

theorem friendKey_ne_user (x y n : Int) : friendKey x y ≠ "user" ++ Itoa n := by
  intro h
  have := congrArg String.data h
  simp [friendKey] at this

theorem digitChar_ne_i (d : Nat) (h : d < 10) : Nat.digitChar d ≠ 'i' := by
  interval_cases d <;> decide

theorem formatBits_ne_i (fuel n : Nat) (acc : List Char) (hacc : ∀ c ∈ acc, c ≠ 'i') :
    ∀ c ∈ formatBits fuel n acc, c ≠ 'i' := by
  induction fuel generalizing n acc with
  | zero => simpa [formatBits] using hacc
  | succ fuel ih =>
    have hd : Nat.digitChar (n % 10) ≠ 'i' := digitChar_ne_i _ (Nat.mod_lt _ (by norm_num))
    have hacc1 : ∀ c ∈ Nat.digitChar (n % 10) :: acc, c ≠ 'i' := by
      intro c hc
      rcases List.mem_cons.mp hc with rfl | hc
      · exact hd
      · exact hacc c hc
    unfold formatBits
    split
    · exact hacc1
    · exact ih _ _ hacc1

theorem Itoa_ne_i (n : Int) : ∀ c ∈ (Itoa n).data, c ≠ 'i' := by
  unfold Itoa
  split
  · intro c hc
    rcases List.mem_cons.mp hc with rfl | hc
    · decide
    · exact formatBits_ne_i _ _ [] (by simp) c hc
  · exact formatBits_ne_i _ _ [] (by simp)

theorem user_ne_userid (a n : Int) : "user" ++ Itoa a ≠ "userid-" ++ Itoa n := by
  intro h
  have h1 := congrArg String.data h
  simp only [String.data_append] at h1
  have h2 : (Itoa a).data = 'i' :: 'd' :: '-' :: (Itoa n).data := by
    simpa using h1
  exact Itoa_ne_i a 'i' (by rw [h2]; simp) rfl

/-! ### Frame of the identity lookups -/

/-- What `getCurrentUser` can do: either nothing changes, or the session user was read
from the store and written to the request context and to the cache. -/
theorem getCurrentUser_cases (sess : Option Int) (s : St) :
    (getCurrentUser sess s).2 = s
    ∨ ∃ n row, sess = some n ∧ s.ctx = none
        ∧ s.ca.Get ("userid-" ++ Itoa n) s.now = none
        ∧ s.db.users.find? (fun r => r.id = n) = some row
        ∧ getCurrentUser sess s =
            (.ok (some (userOfRow row)),
              { s with ctx := some (userOfRow row),
                       ca := (s.ca.Set ("userid-" ++ Itoa n) (.user (userOfRow row))
                                NoExpiration s.now) }) := by
  unfold getCurrentUser
  cases hctx : s.ctx with
  | some u => exact Or.inl rfl
  | none =>
    cases sess with
    | none => exact Or.inl rfl
    | some n =>
      dsimp only
      cases hget : s.ca.Get ("userid-" ++ Itoa n) s.now with
      | some v =>
        cases v with
        | user u => exact Or.inl rfl
        | int k => exact Or.inl rfl
      | none =>
        cases hfind : s.db.users.find? (fun r => r.id = n) with
        | none => exact Or.inl rfl
        | some row => exact Or.inr ⟨n, row, rfl, rfl, hget, hfind, rfl⟩

theorem getCurrentUser_db (sess : Option Int) (s : St) :
    (getCurrentUser sess s).2.db = s.db ∧ (getCurrentUser sess s).2.now = s.now := by
  rcases getCurrentUser_cases sess s with h | ⟨n, row, _, _, _, _, h⟩
  · rw [h]; exact ⟨rfl, rfl⟩
  · rw [h]; exact ⟨rfl, rfl⟩

theorem getCurrentUser_Get (sess : Option Int) (s : St) (k : String) (t : Time)
    (hk : ∀ n, k ≠ "userid-" ++ Itoa n) :
    (getCurrentUser sess s).2.ca.Get k t = s.ca.Get k t := by
  rcases getCurrentUser_cases sess s with h | ⟨n, row, _, _, _, _, h⟩
  · rw [h]
  · rw [h]
    exact Cache.Get_Set_other _ _ _ _ _ _ _ (hk n)

/-- Once `getCurrentUser` has resolved a user, asking again in the resulting state gives the
same user and changes nothing. -/
theorem getCurrentUser_again (sess : Option Int) (s s1 : St) (u : User)
    (h : getCurrentUser sess s = (.ok (some u), s1)) :
    getCurrentUser sess s1 = (.ok (some u), s1) := by
  rcases getCurrentUser_cases sess s with h1 | ⟨n, row, _, _, _, _, h1⟩
  · rw [h] at h1
    dsimp only at h1
    subst h1
    exact h
  · rw [h1] at h
    injection h with ha hb
    injection ha with ha
    injection ha with ha
    subst ha
    subst hb
    rfl

/-- What `getUser` can do: either nothing changes, or the row was read from the store and
written to the cache under the key of the id. -/
theorem getUser_cases (userID : Int) (s : St) :
    (getUser userID s).2 = s
    ∨ ∃ row, s.ca.Get ("user" ++ Itoa userID) s.now = none
        ∧ s.db.users.find? (fun r => r.id = userID) = some row
        ∧ getUser userID s =
            (.ok (userOfRow row),
              { s with ca := (s.ca.Set ("user" ++ Itoa userID) (.user (userOfRow row))
                                NoExpiration s.now) }) := by
  unfold getUser
  dsimp only
  cases hget : s.ca.Get ("user" ++ Itoa userID) s.now with
  | some v =>
    cases v with
    | user u => exact Or.inl rfl
    | int k => exact Or.inl rfl
  | none =>
    cases hfind : s.db.users.find? (fun r => r.id = userID) with
    | none => exact Or.inl rfl
    | some row => exact Or.inr ⟨row, rfl, rfl, rfl⟩

theorem getUser_db (userID : Int) (s : St) :
    (getUser userID s).2.db = s.db ∧ (getUser userID s).2.now = s.now
    ∧ (getUser userID s).2.ctx = s.ctx := by
  rcases getUser_cases userID s with h | ⟨row, _, _, h⟩
  · rw [h]; exact ⟨rfl, rfl, rfl⟩
  · rw [h]; exact ⟨rfl, rfl, rfl⟩

theorem getUser_Get (userID : Int) (s : St) (k : String) (t : Time)
    (hk : k ≠ "user" ++ Itoa userID) :
    (getUser userID s).2.ca.Get k t = s.ca.Get k t := by
  rcases getUser_cases userID s with h | ⟨row, _, _, h⟩
  · rw [h]
  · rw [h]
    exact Cache.Get_Set_other _ _ _ _ _ _ _ hk

/-- The boolean of `isFriend` depends only on the store, the clock and the cache entries
under friendship keys. -/
theorem isFriend_result_congr (sess : Option Int) (x : Int) (s1 s : St)
    (hdb : s1.db = s.db) (hnow : s1.now = s.now)
    (hca : ∀ a b, s1.ca.Get (friendKey a b) s.now = s.ca.Get (friendKey a b) s.now) :
    (isFriend sess x s1).1 = (isFriend sess x s).1 := by
  cases sess with
  | none => rfl
  | some id =>
    rw [isFriend_unfold, isFriend_unfold, hnow, hca, hdb]
    cases s.ca.Get (friendKey (min id x) (max id x)) s.now with
    | some v => rfl
    | none =>
      dsimp only
      split <;> rfl

/-- C3: when the session resolves to the user `u`, `permitted` is true for the owner id
`u.ID` whatever the store and the cache hold about friendship, and for every other owner id
it is the call `isFriend` (whose answer is the one `isFriend` gives before the lookup of
the session user). -/
theorem permitted_self_or_friend (sess : Option Int) (owner : Int) (s s1 : St) (u : User)
    (h : getCurrentUser sess s = (.ok (some u), s1)) :
    (owner = u.ID → permitted sess owner s = (.ok true, s1))
    ∧ (owner ≠ u.ID →
        permitted sess owner s = isFriend sess owner s1
        ∧ (permitted sess owner s).1 = (isFriend sess owner s).1) := by
  have hp : permitted sess owner s =
      if owner = u.ID then (.ok true, s1) else isFriend sess owner s1 := by
    simp only [permitted, h]
  have hs1 : s1 = (getCurrentUser sess s).2 := by rw [h]
  refine ⟨fun ho => by rw [hp, if_pos ho], fun ho => ?_⟩
  rw [hp, if_neg ho]
  refine ⟨rfl, ?_⟩
  apply isFriend_result_congr
  · rw [hs1]; exact (getCurrentUser_db sess s).1
  · rw [hs1]; exact (getCurrentUser_db sess s).2
  · intro a b
    rw [hs1]
    exact getCurrentUser_Get sess s _ _ (fun n => friendKey_ne_userid a b n)

/-- C3 at `world0`: user 1 is permitted on owner 1, and on owner 2 the answer is the one of
`isFriend`. -/
theorem permitted_self_or_friend_witness :
    permitted (some 1) 1 ⟨world0, none⟩ = (.ok true, (getCurrentUser (some 1) ⟨world0, none⟩).2)
    ∧ (permitted (some 1) 2 ⟨world0, none⟩).1 = (isFriend (some 1) 2 ⟨world0, none⟩).1 :=
  ⟨(permitted_self_or_friend (some 1) 1 ⟨world0, none⟩ _
      ⟨1, "alice", "Alice", "alice@example.com"⟩ rfl).1 rfl,
   ((permitted_self_or_friend (some 1) 2 ⟨world0, none⟩ _
      ⟨1, "alice", "Alice", "alice@example.com"⟩ rfl).2 (by decide)).2⟩

/-! ### Creating a friendship -/

theorem isFriend_false_state (sess : Option Int) (x : Int) (s : St)
    (h : (isFriend sess x s).1 = .ok false) : isFriend sess x s = (.ok false, s) := by
  cases sess with
  | none => simp [isFriend] at h
  | some id =>
    rw [isFriend_unfold] at h ⊢
    cases hg : s.ca.Get (friendKey (min id x) (max id x)) s.now with
    | some v => rw [hg] at h; simp at h
    | none =>
      rw [hg] at h
      dsimp only at h ⊢
      by_cases hc : countRelations s.db (min id x) (max id x) > 0
      · rw [if_pos hc] at h; simp at h
      · rw [if_neg hc]

theorem isFriend_of_row (id x : Int) (s : St)
    (h : ∃ r ∈ s.db.relations, r.one = min id x ∧ r.another = max id x) :
    (isFriend (some id) x s).1 = .ok true := by
  rw [isFriend_unfold]
  cases s.ca.Get (friendKey (min id x) (max id x)) s.now with
  | some v => rfl
  | none =>
    dsimp only
    rw [if_pos ((countRelations_pos_iff _ _ _).mpr h)]

theorem mirrored_rows_hold_edge (rel : List RelationRow) (a b : Int) (t : Time) :
    ∃ r ∈ rel ++ [⟨a, b, t⟩, ⟨b, a, t⟩], r.one = min a b ∧ r.another = max a b := by
  rcases le_total a b with h | h
  · exact ⟨⟨a, b, t⟩, by simp, by simp [min_eq_left h], by simp [max_eq_right h]⟩
  · exact ⟨⟨b, a, t⟩, by simp, by simp [min_eq_right h], by simp [max_eq_left h]⟩

/-- The run of `PostFriends` for a resolved session user who is not yet a friend of the
resolved account: both mirrored rows are appended to `relations`. -/
theorem PostFriends_insert (sess : Option Int) (name : String) (w : World) (u ub : User)
    (s1 : St) (hsess : getCurrentUser sess ⟨w, none⟩ = (.ok (some u), s1))
    (hacc : getUserFromAccount name w.db = .ok ub)
    (hnot : (isFriend sess ub.ID s1).1 = .ok false) :
    PostFriends sess name w =
      (.ok (.redirect "/friends" 303),
        { s1.toWorld with db := insertRelations s1.db u.ID ub.ID s1.now }) := by
  have hdb : s1.db = w.db := by
    have := (getCurrentUser_db sess ⟨w, none⟩).1
    rw [hsess] at this
    exact this
  have hagain := getCurrentUser_again sess _ s1 u hsess
  have hf := isFriend_false_state sess ub.ID s1 hnot
  simp only [PostFriends, authenticated, hsess, hagain, isFriendAccount, hdb, hacc, hf]

/-- C2: when `isFriend(a, b)` is false, the session of `a` resolves to user `a` and the
account name resolves to user `b`, `PostFriends` succeeds and, at every later clock reading
and in every request, `isFriend(a, b)` and `isFriend(b, a)` are both true. -/
theorem PostFriends_then_isFriend (w : World) (a b : Int) (name : String) (u ub : User)
    (s1 : St) (hsess : getCurrentUser (some a) ⟨w, none⟩ = (.ok (some u), s1))
    (hu : u.ID = a) (hacc : getUserFromAccount name w.db = .ok ub) (hb : ub.ID = b)
    (hnot : (isFriend (some a) b ⟨w, none⟩).1 = .ok false) :
    (PostFriends (some a) name w).1 = .ok (.redirect "/friends" 303)
    ∧ ∀ (t : Time) (ctx : Option User),
        (isFriend (some a) b ⟨{ (PostFriends (some a) name w).2 with now := t }, ctx⟩).1
          = .ok true
        ∧ (isFriend (some b) a ⟨{ (PostFriends (some a) name w).2 with now := t }, ctx⟩).1
          = .ok true := by
  have hs1 : s1 = (getCurrentUser (some a) ⟨w, none⟩).2 := by rw [hsess]
  have hnot1 : (isFriend (some a) ub.ID s1).1 = .ok false := by
    rw [hb, ← hnot]
    apply isFriend_result_congr
    · rw [hs1]; exact (getCurrentUser_db _ _).1
    · rw [hs1]; exact (getCurrentUser_db _ _).2
    · intro x y
      rw [hs1]
      exact getCurrentUser_Get _ _ _ _ (fun n => friendKey_ne_userid x y n)
  rw [PostFriends_insert (some a) name w u ub s1 hsess hacc hnot1, hu, hb]
  refine ⟨rfl, fun t ctx => ?_⟩
  have hrow := mirrored_rows_hold_edge s1.db.relations a b s1.now
  refine ⟨isFriend_of_row a b _ hrow, ?_⟩
  apply isFriend_of_row
  rw [min_comm, max_comm]
  exact hrow

/-- C2 at `world0`: user 1 befriends `bob` (user 2). -/
theorem PostFriends_then_isFriend_witness :
    (PostFriends (some 1) "bob" world0).1 = .ok (.redirect "/friends" 303)
    ∧ ∀ (t : Time) (ctx : Option User),
        (isFriend (some 1) 2 ⟨{ (PostFriends (some 1) "bob" world0).2 with now := t }, ctx⟩).1
          = .ok true
        ∧ (isFriend (some 2) 1 ⟨{ (PostFriends (some 1) "bob" world0).2 with now := t }, ctx⟩).1
          = .ok true :=
  PostFriends_then_isFriend world0 1 2 "bob" ⟨1, "alice", "Alice", "alice@example.com"⟩
    ⟨2, "bob", "Bob", "bob@example.com"⟩ _ rfl rfl rfl rfl rfl

/-! ### Idempotence of `PostFriends` -/

/-- Unless `getCurrentUser` resolves a user, it leaves the state untouched. -/
theorem getCurrentUser_unresolved (sess : Option Int) (s : St)
    (h : ∀ u, (getCurrentUser sess s).1 ≠ .ok (some u)) : (getCurrentUser sess s).2 = s := by
  rcases getCurrentUser_cases sess s with h1 | ⟨n, row, _, _, _, _, h1⟩
  · exact h1
  · exact absurd (by rw [h1]) (h (userOfRow row))

/-- The outcomes of `PostFriends`, by the stage it reaches. -/
theorem PostFriends_cases (sess : Option Int) (name : String) (w : World) :
    ((PostFriends sess name w).2 = w
      ∧ ∀ u, (getCurrentUser sess ⟨w, none⟩).1 ≠ .ok (some u))
    ∨ ∃ u s1, getCurrentUser sess ⟨w, none⟩ = (.ok (some u), s1)
        ∧ ((∃ e, getUserFromAccount name w.db = .error e
              ∧ (PostFriends sess name w).2 = s1.toWorld)
          ∨ ∃ ub, getUserFromAccount name w.db = .ok ub
              ∧ (((isFriend sess ub.ID s1).1 ≠ .ok false
                    ∧ (PostFriends sess name w).2 = (isFriend sess ub.ID s1).2.toWorld)
                ∨ ((isFriend sess ub.ID s1).1 = .ok false
                    ∧ (PostFriends sess name w).2 =
                        { s1.toWorld with
                          db := insertRelations s1.db u.ID ub.ID s1.now }))) := by
  rcases hg : getCurrentUser sess ⟨w, none⟩ with ⟨r, s1⟩
  have hs1 : s1 = (getCurrentUser sess ⟨w, none⟩).2 := by rw [hg]
  have hdb : s1.db = w.db := by rw [hs1]; exact (getCurrentUser_db _ _).1
  cases r with
  | error e =>
    left
    have hun : (getCurrentUser sess ⟨w, none⟩).2 = ⟨w, none⟩ :=
      getCurrentUser_unresolved _ _ (fun u => by rw [hg]; simp)
    rw [hg] at hun
    dsimp only at hun
    subst hun
    refine ⟨?_, fun u => by simp⟩
    simp only [PostFriends, authenticated, hg]
  | ok o =>
    cases o with
    | none =>
      left
      have hun : (getCurrentUser sess ⟨w, none⟩).2 = ⟨w, none⟩ :=
        getCurrentUser_unresolved _ _ (fun u => by rw [hg]; simp)
      rw [hg] at hun
      dsimp only at hun
      subst hun
      refine ⟨?_, fun u => by simp⟩
      simp only [PostFriends, authenticated, hg]
    | some u =>
      right
      refine ⟨u, s1, rfl, ?_⟩
      have hagain := getCurrentUser_again sess _ s1 u hg
      cases hacc : getUserFromAccount name w.db with
      | error e =>
        left
        refine ⟨e, rfl, ?_⟩
        simp only [PostFriends, authenticated, hg, hagain, isFriendAccount, hdb, hacc]
      | ok ub =>
        right
        refine ⟨ub, rfl, ?_⟩
        rcases hf : isFriend sess ub.ID s1 with ⟨rb, s3⟩
        cases rb with
        | error e =>
          left
          refine ⟨by simp, ?_⟩
          simp only [PostFriends, authenticated, hg, hagain, isFriendAccount, hdb, hacc, hf]
        | ok b =>
          cases b with
          | true =>
            left
            refine ⟨by simp, ?_⟩
            simp only [PostFriends, authenticated, hg, hagain, isFriendAccount, hdb, hacc, hf]
          | false =>
            right
            refine ⟨rfl, ?_⟩
            have hf1 := isFriend_false_state sess ub.ID s1 (by rw [hf])
            rw [hf] at hf1
            injection hf1 with _ hs3
            subst hs3
            simp only [PostFriends, authenticated, hg, hagain, isFriendAccount, hdb, hacc, hf]

theorem isFriend_db (sess : Option Int) (x : Int) (s : St) :
    (isFriend sess x s).2.db = s.db ∧ (isFriend sess x s).2.now = s.now := by
  cases sess with
  | none => exact ⟨rfl, rfl⟩
  | some id =>
    rw [isFriend_unfold]
    cases s.ca.Get (friendKey (min id x) (max id x)) s.now with
    | some v => exact ⟨rfl, rfl⟩
    | none =>
      dsimp only
      split <;> exact ⟨rfl, rfl⟩

/-- With an empty request context, a resolved user carries the id held by the session,
provided the cache entry of the session user (if any) is a record of that user. -/
theorem getCurrentUser_fresh_id (sess : Option Int) (w : World) (u : User) (s1 : St)
    (hcoh : ∀ n v, sess = some n →
      w.ca.Get ("userid-" ++ Itoa n) w.now = some (.user v) → v.ID = n)
    (h : getCurrentUser sess ⟨w, none⟩ = (.ok (some u), s1)) : sess = some u.ID := by
  unfold getCurrentUser at h
  dsimp only at h
  cases sess with
  | none => simp at h
  | some n =>
    dsimp only at h
    cases hg : w.ca.Get ("userid-" ++ Itoa n) w.now with
    | some v =>
      rw [hg] at h
      cases v with
      | user v =>
        dsimp only at h
        injection h with h1 _
        injection h1 with h1
        injection h1 with h1
        subst h1
        rw [hcoh n v rfl hg]
      | int k => simp at h
    | none =>
      rw [hg] at h
      dsimp only at h
      cases hf : w.db.users.find? (fun r => r.id = n) with
      | none => rw [hf] at h; simp at h
      | some row =>
        rw [hf] at h
        dsimp only at h
        injection h with h1 _
        injection h1 with h1
        injection h1 with h1
        subst h1
        have := List.find?_some hf
        simp only [decide_eq_true_eq] at this
        simp [userOfRow, this]

/-- When no cached entry changes its lookup between the clock readings `t` and `w.now`,
`getCurrentUser` answers the same at both. -/
theorem getCurrentUser_result_clock (sess : Option Int) (w : World) (t : Time)
    (hclock : ∀ k, w.ca.Get k t = w.ca.Get k w.now) :
    (getCurrentUser sess ⟨{ w with now := t }, none⟩).1
      = (getCurrentUser sess ⟨w, none⟩).1 := by
  unfold getCurrentUser
  cases sess with
  | none => rfl
  | some n =>
    dsimp only
    rw [hclock]
    cases w.ca.Get ("userid-" ++ Itoa n) w.now with
    | some v =>
      cases v with
      | user u => rfl
      | int k => rfl
    | none =>
      dsimp only
      cases w.db.users.find? (fun r => r.id = n) with
      | none => rfl
      | some row => rfl

/-- The lookups that agree at two clock readings still agree after `getCurrentUser`. -/
theorem getCurrentUser_clock (sess : Option Int) (s : St) (t : Time)
    (hclock : ∀ k, s.ca.Get k t = s.ca.Get k s.now) :
    ∀ k, (getCurrentUser sess s).2.ca.Get k t = (getCurrentUser sess s).2.ca.Get k s.now := by
  intro k
  rcases getCurrentUser_cases sess s with h | ⟨n, row, _, _, _, _, h⟩
  · rw [h]
    exact hclock k
  · rw [h]
    by_cases hk : k = "userid-" ++ Itoa n
    · subst hk
      rw [Cache.Get_Set_same, Cache.Get_Set_same]
    · rw [Cache.Get_Set_other _ _ _ _ _ _ _ hk, Cache.Get_Set_other _ _ _ _ _ _ _ hk]
      exact hclock k

/-- An answer of `isFriend` other than `false` is not `false` either at another clock
reading, on the cache the first call left, when no cached entry changes its lookup
between the two readings. -/
theorem isFriend_stable_clock (sess : Option Int) (x : Int) (s s2 : St)
    (h : (isFriend sess x s).1 ≠ .ok false)
    (hca : s2.ca = (isFriend sess x s).2.ca)
    (hclock : ∀ k, s.ca.Get k s2.now = s.ca.Get k s.now) :
    (isFriend sess x s2).1 ≠ .ok false := by
  cases sess with
  | none => simp [isFriend]
  | some id =>
    rw [isFriend_unfold] at h hca
    rw [isFriend_unfold]
    cases hg : s.ca.Get (friendKey (min id x) (max id x)) s.now with
    | some v =>
      rw [hg] at hca
      dsimp only at hca
      rw [hca, hclock, hg]
      simp
    | none =>
      rw [hg] at h hca
      dsimp only at h hca
      by_cases hc : countRelations s.db (min id x) (max id x) > 0
      · rw [if_pos hc] at hca
        dsimp only at hca
        rw [hca, Cache.Get_Set_same]
        simp
      · rw [if_neg hc] at h
        exact absurd rfl h

theorem isFriend_some_bool (id x : Int) (s : St) :
    (isFriend (some id) x s).1 = .ok true ∨ (isFriend (some id) x s).1 = .ok false := by
  rw [isFriend_unfold]
  cases s.ca.Get (friendKey (min id x) (max id x)) s.now with
  | some v => exact Or.inl rfl
  | none =>
    dsimp only
    split
    · exact Or.inl rfl
    · exact Or.inr rfl

theorem isFriend_comm (a b : Int) (s : St) :
    isFriend (some a) b s = isFriend (some b) a s := by
  simp only [isFriend, ordered_comm a b]

theorem countRelations_insert (db : DB) (a b : Int) (t : Time) (hab : a ≠ b) :
    countRelations (insertRelations db a b t) a b = countRelations db a b + 1
    ∧ countRelations (insertRelations db a b t) b a = countRelations db b a + 1 := by
  have hba : b ≠ a := fun e => hab e.symm
  unfold countRelations insertRelations
  simp only [List.filter_append, List.length_append, List.filter_cons, List.filter_nil]
  constructor
  · simp [hab, hba]
  · simp [hab, hba]

/-- The run of `PostFriends` for a resolved session user who is already a friend of the
resolved account: nothing is inserted. -/
theorem PostFriends_friend (sess : Option Int) (name : String) (w : World) (u ub : User)
    (s1 : St) (hsess : getCurrentUser sess ⟨w, none⟩ = (.ok (some u), s1))
    (hacc : getUserFromAccount name w.db = .ok ub)
    (htrue : (isFriend sess ub.ID s1).1 = .ok true) :
    PostFriends sess name w = (.ok .empty, (isFriend sess ub.ID s1).2.toWorld) := by
  have hdb : s1.db = w.db := by
    have := (getCurrentUser_db sess ⟨w, none⟩).1
    rw [hsess] at this
    exact this
  have hagain := getCurrentUser_again sess _ s1 u hsess
  rcases hf : isFriend sess ub.ID s1 with ⟨rb, s3⟩
  rw [hf] at htrue
  dsimp only at htrue
  subst htrue
  simp only [PostFriends, authenticated, hsess, hagain, isFriendAccount, hdb, hacc, hf]

/-- The second request inserts nothing: when the session, if it resolves, resolves to the
user it names, and no cached entry changes its lookup between the clock reading of the
first request and the reading `t` of the second, the second `PostFriends` leaves the store
as the first left it. -/
theorem PostFriends_second_call (sess : Option Int) (name : String) (w : World) (t : Time)
    (hfrom : ∀ u s1, getCurrentUser sess ⟨w, none⟩ = (.ok (some u), s1) → sess = some u.ID)
    (hclock : ∀ k, w.ca.Get k t = w.ca.Get k w.now) :
    (PostFriends sess name { (PostFriends sess name w).2 with now := t }).2.db
      = (PostFriends sess name w).2.db := by
  have first := PostFriends_cases sess name w
  have second := PostFriends_cases sess name { (PostFriends sess name w).2 with now := t }
  rcases second with ⟨h2, _⟩ | ⟨u2, t1, hg2, hrest⟩
  · rw [h2]
  · have ht1 : t1 = (getCurrentUser sess
        ⟨{ (PostFriends sess name w).2 with now := t }, none⟩).2 := by rw [hg2]
    have ht1db : t1.db = (PostFriends sess name w).2.db := by
      rw [ht1]; exact (getCurrentUser_db _ _).1
    rcases hrest with ⟨e, _, h2⟩ | ⟨ub2, hacc2, ⟨_, h2⟩ | ⟨hfalse, _⟩⟩
    · rw [h2]; exact ht1db
    · rw [h2]
      exact ((isFriend_db sess ub2.ID t1).1).trans ht1db
    · exfalso
      -- the second call reached the insert: the first cannot have left such a world
      have hacc2a : getUserFromAccount name (PostFriends sess name w).2.db = .ok ub2 := hacc2
      have hfalse0 : (isFriend sess ub2.ID
          ⟨{ (PostFriends sess name w).2 with now := t }, none⟩).1 = .ok false := by
        rw [← hfalse]
        symm
        apply isFriend_result_congr
        · exact ht1db
        · rw [ht1]; exact (getCurrentUser_db _ _).2
        · intro a b
          rw [ht1]
          exact getCurrentUser_Get _ _ _ _ (fun n => friendKey_ne_userid a b n)
      rcases first with ⟨h1, hno⟩ | ⟨u, s1, hg, hcase⟩
      · rw [h1] at hg2
        have hsame := getCurrentUser_result_clock sess w t hclock
        rw [hg2] at hsame
        exact hno u2 hsame.symm
      · have hs1 : s1 = (getCurrentUser sess ⟨w, none⟩).2 := by rw [hg]
        have hs1db : s1.db = w.db := by rw [hs1]; exact (getCurrentUser_db _ _).1
        have hs1now : s1.now = w.now := by rw [hs1]; exact (getCurrentUser_db _ _).2
        rcases hcase with ⟨e, hacc, h1⟩ | ⟨ub, hacc, ⟨hne, h1⟩ | ⟨_, h1⟩⟩
        · rw [h1] at hacc2a
          have : s1.toWorld.db = w.db := hs1db
          rw [this, hacc] at hacc2a
          simp at hacc2a
        · have hdb1 : (PostFriends sess name w).2.db = w.db := by
            rw [h1]
            exact ((isFriend_db sess ub.ID s1).1).trans hs1db
          rw [hdb1, hacc] at hacc2a
          injection hacc2a with hub
          subst hub
          have hclock1 : ∀ k, s1.ca.Get k t = s1.ca.Get k s1.now := by
            intro k
            rw [hs1now, hs1]
            exact getCurrentUser_clock sess ⟨w, none⟩ t hclock k
          have hca : (PostFriends sess name w).2.ca = (isFriend sess ub.ID s1).2.ca :=
            congrArg World.ca h1
          exact isFriend_stable_clock sess ub.ID s1
            ⟨{ (PostFriends sess name w).2 with now := t }, none⟩ hne hca hclock1 hfalse0
        · have hid := hfrom u s1 hg
          have husers : getUserFromAccount name (PostFriends sess name w).2.db
              = getUserFromAccount name w.db := by
            rw [h1]
            simp only [getUserFromAccount, insertRelations, hs1db]
          rw [husers, hacc] at hacc2a
          injection hacc2a with hub
          subst hub
          have htrue : (isFriend (some u.ID) ub.ID
              ⟨{ (PostFriends sess name w).2 with now := t }, none⟩).1 = .ok true := by
            apply isFriend_of_row
            rw [h1]
            exact mirrored_rows_hold_edge s1.db.relations u.ID ub.ID s1.now
          rw [← hid] at htrue
          rw [htrue] at hfalse0
          simp at hfalse0

/-- The first request of a resolved session user `a` towards a resolved account: it
succeeds, it leaves the store as it was when `isFriend` already answered true and otherwise
appends the two mirrored rows, and afterwards `isFriend` answers true at the clock
reading `t`. -/
theorem PostFriends_first_call (a : Int) (name : String) (w : World) (t : Time)
    (u ub : User) (s1 : St)
    (hg : getCurrentUser (some a) ⟨w, none⟩ = (.ok (some u), s1)) (hu : u.ID = a)
    (hacc : getUserFromAccount name w.db = .ok ub)
    (hclock : ∀ k, w.ca.Get k t = w.ca.Get k w.now) :
    (∃ resp, (PostFriends (some a) name w).1 = .ok resp)
    ∧ (∀ ctx, (isFriend (some a) ub.ID
          ⟨{ (PostFriends (some a) name w).2 with now := t }, ctx⟩).1 = .ok true)
    ∧ ((isFriend (some a) ub.ID ⟨w, none⟩).1 = .ok true →
        (PostFriends (some a) name w).2.db = w.db)
    ∧ ((isFriend (some a) ub.ID ⟨w, none⟩).1 = .ok false →
        (PostFriends (some a) name w).2.db = insertRelations w.db a ub.ID w.now) := by
  have hs1 : s1 = (getCurrentUser (some a) ⟨w, none⟩).2 := by rw [hg]
  have hs1db : s1.db = w.db := by rw [hs1]; exact (getCurrentUser_db _ _).1
  have hs1now : s1.now = w.now := by rw [hs1]; exact (getCurrentUser_db _ _).2
  have hsame : (isFriend (some a) ub.ID s1).1 = (isFriend (some a) ub.ID ⟨w, none⟩).1 := by
    apply isFriend_result_congr
    · exact hs1db
    · exact hs1now
    · intro x y
      rw [hs1]
      exact getCurrentUser_Get _ _ _ _ (fun n => friendKey_ne_userid x y n)
  rcases isFriend_some_bool a ub.ID s1 with htrue | hfalse
  · -- already a friend
    have hpf := PostFriends_friend (some a) name w u ub s1 hg hacc htrue
    have hdb : (PostFriends (some a) name w).2.db = w.db := by
      rw [hpf]
      exact ((isFriend_db (some a) ub.ID s1).1).trans hs1db
    refine ⟨⟨.empty, by rw [hpf]⟩, fun ctx => ?_, fun _ => hdb, fun hf => ?_⟩
    · have hclock1 : ∀ k, s1.ca.Get k t = s1.ca.Get k s1.now := by
        intro k
        rw [hs1now, hs1]
        exact getCurrentUser_clock (some a) ⟨w, none⟩ t hclock k
      have hne : (isFriend (some a) ub.ID s1).1 ≠ .ok false := by
        rw [htrue]; simp
      have hst := isFriend_stable_clock (some a) ub.ID s1
        ⟨{ (PostFriends (some a) name w).2 with now := t }, ctx⟩ hne
        (by rw [hpf]) hclock1
      rcases isFriend_some_bool a ub.ID
        ⟨{ (PostFriends (some a) name w).2 with now := t }, ctx⟩ with h | h
      · exact h
      · exact absurd h hst
    · rw [hsame, hf] at htrue
      simp at htrue
  · -- not yet a friend: both rows are inserted
    have hpf := PostFriends_insert (some a) name w u ub s1 hg hacc hfalse
    rw [hu] at hpf
    have hdb : (PostFriends (some a) name w).2.db = insertRelations w.db a ub.ID w.now := by
      rw [hpf]
      simp only [hs1db, hs1now]
    refine ⟨⟨_, by rw [hpf]⟩, fun ctx => ?_, fun ht => ?_, fun _ => hdb⟩
    · apply isFriend_of_row
      have hrel : (PostFriends (some a) name w).2.db.relations
          = w.db.relations ++ [⟨a, ub.ID, w.now⟩, ⟨ub.ID, a, w.now⟩] := by
        rw [hdb]; rfl
      show ∃ r ∈ (PostFriends (some a) name w).2.db.relations, _
      rw [hrel]
      exact mirrored_rows_hold_edge w.db.relations a ub.ID w.now
    · rw [hsame, ht] at hfalse
      simp at hfalse

/-- C5 (amended): when the session, if it resolves, resolves to the user it names, and no
cached entry changes its lookup between the clock readings of the two requests, a second
`PostFriends` towards the same account leaves the store, the `relations` table included,
as the first left it.  When the session resolves to `a` and the account to `b`, the first
request succeeds, appends nothing if `isFriend(a, b)` was already true and otherwise
exactly the two mirrored rows, and afterwards `isFriend(a, b)` and `isFriend(b, a)` are
true; and when `a ≠ b`, the store held no row of the pair in either direction and
`isFriend(a, b)` was false, the store holds after both requests exactly one row `(a, b)`
and exactly one row `(b, a)`. -/
theorem PostFriends_idempotent (sess : Option Int) (name : String) (w : World) (t : Time)
    (hfrom : ∀ u s1, getCurrentUser sess ⟨w, none⟩ = (.ok (some u), s1) → sess = some u.ID)
    (hclock : ∀ k, w.ca.Get k t = w.ca.Get k w.now) :
    (PostFriends sess name { (PostFriends sess name w).2 with now := t }).2.db
      = (PostFriends sess name w).2.db
    ∧ ∀ (a : Int) (u ub : User) (s1 : St), sess = some a →
        getCurrentUser sess ⟨w, none⟩ = (.ok (some u), s1) →
        getUserFromAccount name w.db = .ok ub →
        (∃ resp, (PostFriends sess name w).1 = .ok resp)
        ∧ (∀ ctx,
            (isFriend (some a) ub.ID
              ⟨{ (PostFriends sess name w).2 with now := t }, ctx⟩).1 = .ok true
            ∧ (isFriend (some ub.ID) a
              ⟨{ (PostFriends sess name w).2 with now := t }, ctx⟩).1 = .ok true)
        ∧ ((isFriend (some a) ub.ID ⟨w, none⟩).1 = .ok true →
            (PostFriends sess name w).2.db = w.db)
        ∧ ((isFriend (some a) ub.ID ⟨w, none⟩).1 = .ok false →
            (PostFriends sess name w).2.db.relations
              = w.db.relations ++ [⟨a, ub.ID, w.now⟩, ⟨ub.ID, a, w.now⟩])
        ∧ (a ≠ ub.ID → countRelations w.db a ub.ID = 0 → countRelations w.db ub.ID a = 0 →
            (isFriend (some a) ub.ID ⟨w, none⟩).1 = .ok false →
            countRelations
              (PostFriends sess name { (PostFriends sess name w).2 with now := t }).2.db
              a ub.ID = 1
            ∧ countRelations
              (PostFriends sess name { (PostFriends sess name w).2 with now := t }).2.db
              ub.ID a = 1) := by
  have hsecond := PostFriends_second_call sess name w t hfrom hclock
  refine ⟨hsecond, ?_⟩
  intro a u ub s1 hsess hg hacc
  have hid := hfrom u s1 hg
  subst hsess
  have hu : u.ID = a := by
    injection hid with hid
    exact hid.symm
  obtain ⟨hok, hfriend, hkeep, hins⟩ :=
    PostFriends_first_call a name w t u ub s1 hg hu hacc hclock
  refine ⟨hok, fun ctx => ⟨hfriend ctx, ?_⟩, hkeep, fun hf => ?_, ?_⟩
  · rw [← isFriend_comm]
    exact hfriend ctx
  · rw [hins hf]
    rfl
  · intro hab h1 h2 hf
    rw [hsecond, hins hf]
    have hc := countRelations_insert w.db a ub.ID w.now hab
    rw [hc.1, hc.2, h1, h2]
    exact ⟨rfl, rfl⟩

/-- C5 (amended) at `world0`: user 1 asks for `bob` at the clock readings 5 and 9; the
second request changes nothing and one row of each direction is stored. -/
theorem PostFriends_idempotent_witness :
    (PostFriends (some 1) "bob" { (PostFriends (some 1) "bob" world0).2 with now := 9 }).2.db
      = (PostFriends (some 1) "bob" world0).2.db
    ∧ countRelations
        (PostFriends (some 1) "bob"
          { (PostFriends (some 1) "bob" world0).2 with now := 9 }).2.db 1 2 = 1
    ∧ countRelations
        (PostFriends (some 1) "bob"
          { (PostFriends (some 1) "bob" world0).2 with now := 9 }).2.db 2 1 = 1 :=
  have h := PostFriends_idempotent (some 1) "bob" world0 9
    (fun u s1 hu => getCurrentUser_fresh_id (some 1) world0 u s1
      (fun n v _ hv => by simp [world0, emptyCache, Cache.Get] at hv) hu)
    (fun _ => rfl)
  ⟨h.1,
   (h.2 1 ⟨1, "alice", "Alice", "alice@example.com"⟩ ⟨2, "bob", "Bob", "bob@example.com"⟩ _
      rfl rfl rfl).2.2.2.2 (by decide) rfl rfl rfl⟩

/-- The claim C5 as written fails.  With the friendship key of the pair cached until the
instant 10 and no row stored, the first request of user 1 towards `bob` at the instant 5
inserts nothing and the second, at the instant 20, inserts both rows.  From a store
holding only the mirror row `(2, 1)` the request appends both rows, so the row `(2, 1)` is
there twice after the two requests; and a request of user 1 towards the own account
leaves the row `(1, 1)` twice. -/
theorem PostFriends_not_one_edge :
    ((PostFriends (some 1) "bob" expiringKey).2.db.relations = []
      ∧ (PostFriends (some 1) "bob"
          { (PostFriends (some 1) "bob" expiringKey).2 with now := 20 }).2.db.relations
          = [⟨1, 2, 20⟩, ⟨2, 1, 20⟩]
      ∧ (PostFriends (some 1) "bob"
          { (PostFriends (some 1) "bob" expiringKey).2 with now := 20 }).2.db.relations
          ≠ (PostFriends (some 1) "bob" expiringKey).2.db.relations)
    ∧ ((PostFriends (some 1) "bob" (PostFriends (some 1) "bob" mirrorOnly).2).2.db.relations
          = [⟨2, 1, 0⟩, ⟨1, 2, 5⟩, ⟨2, 1, 5⟩]
      ∧ countRelations
          (PostFriends (some 1) "bob" (PostFriends (some 1) "bob" mirrorOnly).2).2.db 2 1 = 2)
    ∧ ((PostFriends (some 1) "alice" (PostFriends (some 1) "alice" world0).2).2.db.relations
          = [⟨1, 1, 5⟩, ⟨1, 1, 5⟩]
      ∧ countRelations
          (PostFriends (some 1) "alice" (PostFriends (some 1) "alice" world0).2).2.db 1 1
          = 2) := by
  have h1 : (PostFriends (some 1) "bob" expiringKey).2.db.relations = [] := rfl
  have h2 : (PostFriends (some 1) "bob"
      { (PostFriends (some 1) "bob" expiringKey).2 with now := 20 }).2.db.relations
      = [⟨1, 2, 20⟩, ⟨2, 1, 20⟩] := rfl
  have h3 : (PostFriends (some 1) "bob"
      (PostFriends (some 1) "bob" mirrorOnly).2).2.db.relations
      = [⟨2, 1, 0⟩, ⟨1, 2, 5⟩, ⟨2, 1, 5⟩] := rfl
  have h4 : (PostFriends (some 1) "alice"
      (PostFriends (some 1) "alice" world0).2).2.db.relations
      = [⟨1, 1, 5⟩, ⟨1, 1, 5⟩] := rfl
  refine ⟨⟨h1, h2, ?_⟩, ⟨h3, ?_⟩, ⟨h4, ?_⟩⟩
  · rw [h1, h2]
    decide
  · unfold countRelations
    rw [h3]
    decide
  · unfold countRelations
    rw [h4]
    decide

/-! ### The guard of `GetEntry` and `PostComment` -/

/-- How a repeated `getCurrentUser` finds its user: in the request context, or in the cache
under the key of the session user. -/
theorem getCurrentUser_fixed (sess : Option Int) (s : St) (u : User)
    (h : getCurrentUser sess s = (.ok (some u), s)) :
    s.ctx = some u
    ∨ (s.ctx = none ∧ ∃ n, sess = some n
        ∧ s.ca.Get ("userid-" ++ Itoa n) s.now = some (.user u)) := by
  cases hctx : s.ctx with
  | some v =>
    left
    unfold getCurrentUser at h
    rw [hctx] at h
    dsimp only at h
    injection h with h1 _
    simpa using h1
  | none =>
    right
    refine ⟨rfl, ?_⟩
    rcases getCurrentUser_cases sess s with h1 | ⟨n, row, _, _, _, _, h1⟩
    · unfold getCurrentUser at h
      rw [hctx] at h
      dsimp only at h
      cases sess with
      | none => simp at h
      | some n =>
        refine ⟨n, rfl, ?_⟩
        dsimp only at h
        cases hg : s.ca.Get ("userid-" ++ Itoa n) s.now with
        | some v =>
          rw [hg] at h
          cases v with
          | user v =>
            dsimp only at h
            injection h with h2 _
            injection h2 with h2
            injection h2 with h2
            rw [h2]
          | int k => simp at h
        | none =>
          rw [hg] at h
          dsimp only at h
          cases hf : s.db.users.find? (fun r => r.id = n) with
          | none => rw [hf] at h; simp at h
          | some row =>
            rw [hf] at h
            dsimp only at h
            injection h with _ h3
            have := congrArg St.ctx h3
            rw [hctx] at this
            simp at this
    · rw [h1] at h
      injection h with _ h3
      have := congrArg St.ctx h3
      rw [hctx] at this
      simp at this

/-- The user resolved for the request is still the resolved user after a `getUser`. -/
theorem getCurrentUser_after_getUser (sess : Option Int) (x : Int) (s1 : St) (u : User)
    (h : getCurrentUser sess s1 = (.ok (some u), s1)) :
    getCurrentUser sess (getUser x s1).2 = (.ok (some u), (getUser x s1).2) := by
  have hctx2 : (getUser x s1).2.ctx = s1.ctx := (getUser_db x s1).2.2
  have hnow2 : (getUser x s1).2.now = s1.now := (getUser_db x s1).2.1
  rcases getCurrentUser_fixed sess s1 u h with hc | ⟨hc, n, hn, hg⟩
  · unfold getCurrentUser
    rw [hctx2, hc]
  · subst hn
    have hg2 : (getUser x s1).2.ca.Get ("userid-" ++ Itoa n) (getUser x s1).2.now
        = some (.user u) := by
      rw [hnow2, getUser_Get x s1 _ _ (fun e => user_ne_userid x n e.symm)]
      exact hg
    unfold getCurrentUser
    rw [hctx2, hc]
    dsimp only
    rw [hg2]

theorem permitted_db (sess : Option Int) (x : Int) (s : St) :
    (permitted sess x s).2.db = s.db := by
  unfold permitted
  have hdb := (getCurrentUser_db sess s).1
  rcases hg : getCurrentUser sess s with ⟨r, s1⟩
  rw [hg] at hdb
  cases r with
  | error e => exact hdb
  | ok o =>
    cases o with
    | none => exact hdb
    | some u =>
      dsimp only
      split
      · exact hdb
      · exact ((isFriend_db sess x s1).1).trans hdb

theorem checkEntryPermission_db (sess : Option Int) (entry : Entry) (owner : User) (s : St) :
    (checkEntryPermission sess entry owner s).2.db = s.db := by
  unfold checkEntryPermission
  split
  · have hdb := permitted_db sess owner.ID s
    rcases hp : permitted sess owner.ID s with ⟨r, s1⟩
    rw [hp] at hdb
    cases r with
    | error e => exact hdb
    | ok b => cases b <;> exact hdb
  · rfl

/-- The guard lets a request through only for a public entry or when `permitted` holds. -/
theorem checkEntryPermission_ok (sess : Option Int) (entry : Entry) (owner : User) (s : St)
    (h : ∃ x, (checkEntryPermission sess entry owner s).1 = .ok x) :
    entry.Private = false ∨ (permitted sess owner.ID s).1 = .ok true := by
  unfold checkEntryPermission at h
  cases hp : entry.Private with
  | false => exact Or.inl rfl
  | true =>
    right
    rw [hp] at h
    simp only [if_true] at h
    rcases hq : permitted sess owner.ID s with ⟨r, s1⟩
    rw [hq] at h
    cases r with
    | error e => simp at h
    | ok b =>
      cases b with
      | true => rfl
      | false => simp at h

/-- The guard refuses a private entry to a resolved viewer who is neither the owner nor a
friend of the owner. -/
theorem checkEntryPermission_denied (sess : Option Int) (entry : Entry) (owner viewer : User)
    (s : St) (hpriv : entry.Private = true)
    (hview : getCurrentUser sess s = (.ok (some viewer), s))
    (hnotowner : owner.ID ≠ viewer.ID)
    (hnotfriend : (isFriend sess owner.ID s).1 = .ok false) :
    checkEntryPermission sess entry owner s = (.error .ErrPermissionDenied, s) := by
  have hf := isFriend_false_state sess owner.ID s hnotfriend
  simp only [checkEntryPermission, hpriv, if_true, permitted, hview, if_neg hnotowner, hf]

/-- The store after `PostComment`: untouched, unless the request passed the guard. -/
theorem PostComment_db_cases (sess : Option Int) (eid : Int) (comment : String) (w : World) :
    (PostComment sess eid comment w).2.db = w.db
    ∨ ∃ (entry : Entry) (owner : User) (s2 : St),
        loadEntry eid w.db = .ok entry
        ∧ getUser entry.UserID (getCurrentUser sess ⟨w, none⟩).2 = (.ok owner, s2)
        ∧ (entry.Private = false ∨ (permitted sess owner.ID s2).1 = .ok true) := by
  rcases hg : getCurrentUser sess ⟨w, none⟩ with ⟨r, s1⟩
  have hs1 : s1 = (getCurrentUser sess ⟨w, none⟩).2 := by rw [hg]
  have hdb : s1.db = w.db := by rw [hs1]; exact (getCurrentUser_db _ _).1
  cases r with
  | error e =>
    left
    simp only [PostComment, authenticated, hg]
    exact hdb
  | ok o =>
    cases o with
    | none =>
      left
      simp only [PostComment, authenticated, hg]
      exact hdb
    | some viewer =>
      cases hl : loadEntry eid w.db with
      | error e =>
        left
        simp only [PostComment, authenticated, hg, hdb, hl]
      | ok entry =>
        rcases hu : getUser entry.UserID s1 with ⟨ru, s2⟩
        have hdb2 : s2.db = w.db := by
          have := (getUser_db entry.UserID s1).1
          rw [hu] at this
          exact this.trans hdb
        cases ru with
        | error e =>
          left
          simp only [PostComment, authenticated, hg, hdb, hl, hu]
          exact hdb2
        | ok owner =>
          rcases hc : checkEntryPermission sess entry owner s2 with ⟨rc, s3⟩
          have hdb3 : s3.db = w.db := by
            have := checkEntryPermission_db sess entry owner s2
            rw [hc] at this
            exact this.trans hdb2
          cases rc with
          | error e =>
            left
            simp only [PostComment, authenticated, hg, hdb, hl, hu, hc]
            exact hdb3
          | ok x =>
            right
            exact ⟨entry, owner, s2, rfl, hu,
              checkEntryPermission_ok sess entry owner s2 ⟨x, by rw [hc]⟩⟩

/-- C4: for a private entry and a resolved viewer who is neither its owner nor a friend of
the owner, `PostComment` fails with `ErrPermissionDenied` and leaves the store (the
`comments` table included) unchanged, and `GetEntry` fails with `ErrPermissionDenied`;
and whenever `PostComment` changes the `comments` table, the entry is public or
`permitted` answered true for its owner. -/
theorem private_entry_guard (sess : Option Int) (eid : Int) (comment : String) (w : World) :
    (∀ (viewer owner : User) (entry : Entry) (s1 s2 : St),
        getCurrentUser sess ⟨w, none⟩ = (.ok (some viewer), s1) →
        loadEntry eid w.db = .ok entry → entry.Private = true →
        getUser entry.UserID s1 = (.ok owner, s2) →
        owner.ID ≠ viewer.ID →
        (isFriend sess owner.ID ⟨w, none⟩).1 = .ok false →
        (PostComment sess eid comment w).1 = .error .ErrPermissionDenied
        ∧ (PostComment sess eid comment w).2.db = w.db
        ∧ (GetEntry sess eid w).1 = .error .ErrPermissionDenied
        ∧ (GetEntry sess eid w).2.db = w.db)
    ∧ ((PostComment sess eid comment w).2.db.comments ≠ w.db.comments →
        ∃ (entry : Entry) (owner : User) (s2 : St),
          loadEntry eid w.db = .ok entry
          ∧ getUser entry.UserID (getCurrentUser sess ⟨w, none⟩).2 = (.ok owner, s2)
          ∧ (entry.Private = false ∨ (permitted sess owner.ID s2).1 = .ok true)) := by
  constructor
  · intro viewer owner entry s1 s2 hauth hentry hpriv howner hnotowner hnotfriend
    have hs1 : s1 = (getCurrentUser sess ⟨w, none⟩).2 := by rw [hauth]
    have hs2 : s2 = (getUser entry.UserID s1).2 := by rw [howner]
    have hdb : s1.db = w.db := by rw [hs1]; exact (getCurrentUser_db _ _).1
    have hnow : s1.now = w.now := by rw [hs1]; exact (getCurrentUser_db _ _).2
    have hdb2 : s2.db = w.db := by rw [hs2]; exact ((getUser_db _ _).1).trans hdb
    have hnow2 : s2.now = w.now := by rw [hs2]; exact ((getUser_db _ _).2.1).trans hnow
    have hview : getCurrentUser sess s2 = (.ok (some viewer), s2) := by
      rw [hs2]
      exact getCurrentUser_after_getUser sess _ s1 viewer
        (getCurrentUser_again sess _ s1 viewer hauth)
    have hnf : (isFriend sess owner.ID s2).1 = .ok false := by
      rw [← hnotfriend]
      apply isFriend_result_congr
      · exact hdb2
      · exact hnow2
      · intro a b
        have e1 : s2.ca.Get (friendKey a b) w.now = s1.ca.Get (friendKey a b) w.now := by
          rw [hs2]
          exact getUser_Get _ _ _ _ (friendKey_ne_user a b _)
        have e2 : s1.ca.Get (friendKey a b) w.now = w.ca.Get (friendKey a b) w.now := by
          rw [hs1]
          exact getCurrentUser_Get _ _ _ _ (fun n => friendKey_ne_userid a b n)
        exact e1.trans e2
    have hden := checkEntryPermission_denied sess entry owner viewer s2 hpriv hview
      hnotowner hnf
    have hpc : PostComment sess eid comment w = (.error .ErrPermissionDenied, s2.toWorld) := by
      simp only [PostComment, authenticated, hauth, hdb, hentry, howner, hden]
    have hge : GetEntry sess eid w = (.error .ErrPermissionDenied, s2.toWorld) := by
      simp only [GetEntry, authenticated, hauth, hdb, hentry, howner, hden]
    rw [hpc, hge]
    exact ⟨rfl, hdb2, rfl, hdb2⟩
  · intro hne
    rcases PostComment_db_cases sess eid comment w with h | h
    · exact absurd (by rw [h]) hne
    · exact h

/-- C4 at `world0`: user 2 is refused on the private entry 7 of user 1. -/
theorem private_entry_guard_witness :
    (PostComment (some 2) 7 "hi" world0).1 = .error .ErrPermissionDenied
    ∧ (PostComment (some 2) 7 "hi" world0).2.db = world0.db
    ∧ (GetEntry (some 2) 7 world0).1 = .error .ErrPermissionDenied
    ∧ (GetEntry (some 2) 7 world0).2.db = world0.db :=
  (private_entry_guard (some 2) 7 "hi" world0).1
    ⟨2, "bob", "Bob", "bob@example.com"⟩ ⟨1, "alice", "Alice", "alice@example.com"⟩
    ⟨7, 1, true, "Hello", "World", 3⟩ _ _ rfl rfl rfl rfl (by decide) rfl

/-! ### Body split -/

theorem indexNewline_none (l : List Char) : indexNewline l = none ↔ '\n' ∉ l := by
  induction l with
  | nil => simp [indexNewline]
  | cons c cs ih =>
    unfold indexNewline
    by_cases hc : c = '\n'
    · simp [hc]
    · have hc1 : ¬ '\n' = c := fun e => hc e.symm
      simp [hc, hc1, ih]

theorem indexNewline_some (l : List Char) (m : Nat) (h : indexNewline l = some m) :
    l = l.take m ++ '\n' :: l.drop (m + 1) ∧ '\n' ∉ l.take m := by
  induction l generalizing m with
  | nil => simp [indexNewline] at h
  | cons c cs ih =>
    unfold indexNewline at h
    by_cases hc : c = '\n'
    · rw [if_pos hc] at h
      injection h with h
      subst h
      simp [hc]
    · rw [if_neg hc] at h
      cases hi : indexNewline cs with
      | none => rw [hi] at h; simp at h
      | some k =>
        rw [hi] at h
        simp only [Option.map_some'] at h
        injection h with h
        subst h
        have hk := ih k hi
        have hc1 : ¬ '\n' = c := fun e => hc e.symm
        refine ⟨?_, ?_⟩
        · simp only [List.take_succ_cons, List.drop_succ_cons, List.cons_append]
          exact congrArg (List.cons c) hk.1
        · simp only [List.take_succ_cons, List.mem_cons, not_or]
          exact ⟨hc1, hk.2⟩

theorem splitBody_no_newline (body : String) (h : '\n' ∉ body.data) :
    splitBody body = .error .runtimeError := by
  have hi := (indexNewline_none body.data).mpr h
  simp [splitBody, SplitN2, hi]

theorem splitBody_newline (body : String) (h : '\n' ∈ body.data) :
    ∃ title content, splitBody body = .ok (title, content)
      ∧ '\n' ∉ title.data ∧ title ++ "\n" ++ content = body := by
  cases hi : indexNewline body.data with
  | none => exact absurd h ((indexNewline_none body.data).mp hi)
  | some m =>
    have hm := indexNewline_some body.data m hi
    refine ⟨String.mk (body.data.take m), String.mk (body.data.drop (m + 1)), ?_, hm.2, ?_⟩
    · simp [splitBody, SplitN2, hi]
    · apply String.ext
      simp only [String.data_append]
      rw [List.append_assoc]
      exact hm.1.symm

/-- C6: for a row whose body contains a newline the entry literal succeeds, its title is
the text before the first newline (it holds no newline) and title, newline and content make
up the body again; `"Hello\nWorld"` gives the title `"Hello"` and the content `"World"`;
for a body without a newline the entry literal fails with a runtime error. -/
theorem entryFromRow_split (r : EntryRow) :
    ('\n' ∈ r.body.data →
      ∃ e, entryFromRow r = .ok e ∧ '\n' ∉ e.Title.data
        ∧ e.Title ++ "\n" ++ e.Content = r.body
        ∧ e.ID = r.id ∧ e.UserID = r.user_id ∧ e.CreatedAt = r.created_at)
    ∧ ('\n' ∉ r.body.data → entryFromRow r = .error .runtimeError)
    ∧ (r.body = "Hello\nWorld" →
        ∃ e, entryFromRow r = .ok e ∧ e.Title = "Hello" ∧ e.Content = "World") := by
  refine ⟨fun h => ?_, fun h => ?_, fun h => ?_⟩
  · obtain ⟨title, content, hs, hn, hb⟩ := splitBody_newline r.body h
    exact ⟨⟨r.id, r.user_id, r.priv == 1, title, content, r.created_at⟩,
      by simp only [entryFromRow, hs], hn, hb, rfl, rfl, rfl⟩
  · simp only [entryFromRow, splitBody_no_newline r.body h]
  · have hs : splitBody r.body = .ok ("Hello", "World") := by rw [h]; rfl
    exact ⟨⟨r.id, r.user_id, r.priv == 1, "Hello", "World", r.created_at⟩,
      by simp only [entryFromRow, hs], rfl, rfl⟩

/-- C6 at the rows with the bodies `"Hello\nWorld"` and `"NoNewline"`. -/
theorem entryFromRow_split_witness :
    (∃ e, entryFromRow ⟨7, 1, 1, "Hello\nWorld", 3⟩ = .ok e
        ∧ e.Title = "Hello" ∧ e.Content = "World")
    ∧ entryFromRow ⟨8, 1, 0, "NoNewline", 3⟩ = .error .runtimeError :=
  ⟨(entryFromRow_split ⟨7, 1, 1, "Hello\nWorld", 3⟩).2.2 rfl,
   (entryFromRow_split ⟨8, 1, 0, "NoNewline", 3⟩).2.1 (by decide)⟩

/-! ### Identity cache -/

theorem Cache.Get_eq_some (c : Cache) (k : String) (t : Time) (v : CacheVal) :
    c.Get k t = some v ↔
      ∃ item, c.items k = some item ∧ item.Object = v
        ∧ ¬ (item.Expiration > 0 ∧ t > item.Expiration) := by
  unfold Cache.Get
  cases hi : c.items k with
  | none => simp
  | some item =>
    dsimp only
    by_cases he : item.Expiration > 0 ∧ t > item.Expiration
    · rw [if_pos he]
      constructor
      · intro h; simp at h
      · rintro ⟨it, hit, _, hne⟩
        injection hit with hit
        subst hit
        exact absurd he hne
    · rw [if_neg he]
      constructor
      · intro h
        injection h with h
        exact ⟨item, rfl, h, he⟩
      · rintro ⟨it, hit, hv, _⟩
        injection hit with hit
        subst hit
        rw [hv]

theorem getUser_hit (id : Int) (s : St) (u : User)
    (h : s.ca.Get ("user" ++ Itoa id) s.now = some (.user u)) : getUser id s = (.ok u, s) := by
  unfold getUser
  dsimp only
  rw [h]

/-- C9: after a successful `getUser id` the cache holds the returned user under the key of
`id`, and a following `getUser id` returns that same user and leaves the state as it is,
whatever the store then holds, at every clock reading at which the entry has not expired;
an entry written by the first call has expiration `0`, so it is found at every clock
reading.  When `id` is in neither cache nor store, `getUser id` fails with
`ErrContentNotFound` and leaves the state, cache included, unchanged. -/
theorem getUser_repeat (id : Int) (s : St) :
    (∀ u s1, getUser id s = (.ok u, s1) →
      ∃ item, s1.ca.items ("user" ++ Itoa id) = some item ∧ item.Object = .user u
        ∧ (s.ca.Get ("user" ++ Itoa id) s.now = none → item.Expiration = 0)
        ∧ ∀ (db2 : DB) (t : Time) (ctx : Option User),
            (item.Expiration > 0 → t ≤ item.Expiration) →
            getUser id ⟨⟨db2, s1.ca, t⟩, ctx⟩ = (.ok u, ⟨⟨db2, s1.ca, t⟩, ctx⟩))
    ∧ (s.ca.Get ("user" ++ Itoa id) s.now = none → (∀ r ∈ s.db.users, r.id ≠ id) →
        getUser id s = (.error .ErrContentNotFound, s)) := by
  constructor
  · intro u s1 h
    cases hg : s.ca.Get ("user" ++ Itoa id) s.now with
    | some v =>
      cases v with
      | user v =>
        have h1 := getUser_hit id s v hg
        rw [h1] at h
        injection h with ha hb
        injection ha with ha
        subst ha
        subst hb
        obtain ⟨item, hi, ho, he⟩ := (Cache.Get_eq_some _ _ _ _).mp hg
        refine ⟨item, hi, ho, fun hn => by simp at hn, fun db2 t ctx ht => ?_⟩
        apply getUser_hit
        apply (Cache.Get_eq_some _ _ _ _).mpr
        refine ⟨item, hi, ho, fun hx => ?_⟩
        have := ht hx.1
        exact absurd hx.2 (not_lt.mpr this)
      | int k =>
        unfold getUser at h
        dsimp only at h
        rw [hg] at h
        simp at h
    | none =>
      unfold getUser at h
      dsimp only at h
      rw [hg] at h
      dsimp only at h
      cases hf : s.db.users.find? (fun r => r.id = id) with
      | none => rw [hf] at h; simp at h
      | some row =>
        rw [hf] at h
        dsimp only at h
        injection h with ha hb
        injection ha with ha
        subst ha
        subst hb
        refine ⟨⟨.user (userOfRow row), 0⟩, ?_, rfl, fun _ => rfl, fun db2 t ctx _ => ?_⟩
        · simp [Cache.Set, NoExpiration, DefaultExpiration]
        · apply getUser_hit
          exact Cache.Get_Set_same _ _ _ _ _
  · intro hg hno
    have hf : s.db.users.find? (fun r => r.id = id) = none := by
      rw [List.find?_eq_none]
      intro r hr
      simpa using hno r hr
    unfold getUser
    dsimp only
    rw [hg]
    dsimp only
    rw [hf]

/-- C9 at `world0`: the second lookup of user 1 is answered from the cache although the
store has lost every user, and the lookup of the unknown id 9 fails. -/
theorem getUser_repeat_witness :
    (∃ item, (getUser 1 ⟨world0, none⟩).2.ca.items ("user" ++ Itoa 1) = some item
      ∧ item.Object = .user ⟨1, "alice", "Alice", "alice@example.com"⟩
      ∧ getUser 1 ⟨⟨⟨[], [], [], [], []⟩, (getUser 1 ⟨world0, none⟩).2.ca, 1000⟩, none⟩
          = (.ok ⟨1, "alice", "Alice", "alice@example.com"⟩,
             ⟨⟨⟨[], [], [], [], []⟩, (getUser 1 ⟨world0, none⟩).2.ca, 1000⟩, none⟩))
    ∧ getUser 9 ⟨world0, none⟩ = (.error .ErrContentNotFound, ⟨world0, none⟩) :=
  ⟨(((getUser_repeat 1 ⟨world0, none⟩).1 ⟨1, "alice", "Alice", "alice@example.com"⟩ _ rfl).imp
      (fun item h => ⟨h.1, h.2.1,
        h.2.2.2 ⟨[], [], [], [], []⟩ 1000 none (fun hx => by
          have := h.2.2.1 rfl
          rw [this] at hx
          exact absurd hx (by decide))⟩)),
   (getUser_repeat 9 ⟨world0, none⟩).2 rfl (by decide)⟩

/-! ### Friend list -/

theorem lookup_isSome_iff (m : List (Int × Time)) (k : Int) :
    (m.lookup k).isSome = true ↔ k ∈ m.map Prod.fst := by
  induction m with
  | nil => simp
  | cons p m ih =>
    obtain ⟨a, b⟩ := p
    by_cases hk : k = a
    · subst hk
      simp [List.lookup]
    · have hb : (k == a) = false := by simpa using hk
      simp only [List.lookup, hb, List.map_cons, List.mem_cons, hk, false_or]
      exact ih

theorem friendsMap_eq_foldl (rows : List (Int × Time)) :
    friendsMap rows = rows.foldl friendsStep [] := rfl

/-- The entries of the map after the loop: those it started with, and for every new id the
first row of that id. -/
theorem foldl_friendsStep_mem (rows acc : List (Int × Time)) (kv : Int × Time) :
    kv ∈ rows.foldl friendsStep acc ↔
      kv ∈ acc ∨ (kv.1 ∉ acc.map Prod.fst
        ∧ rows.find? (fun r => r.1 = kv.1) = some kv) := by
  induction rows generalizing acc with
  | nil => simp
  | cons r rs ih =>
    rw [List.foldl_cons, ih, List.find?_cons]
    unfold friendsStep
    by_cases hr : r.1 ∈ acc.map Prod.fst
    · rw [if_pos ((lookup_isSome_iff acc r.1).mpr hr)]
      constructor
      · rintro (h | ⟨h1, h2⟩)
        · exact Or.inl h
        · right
          refine ⟨h1, ?_⟩
          have hne : ¬ r.1 = kv.1 := fun e => h1 (e ▸ hr)
          simp only [hne, decide_False]
          exact h2
      · rintro (h | ⟨h1, h2⟩)
        · exact Or.inl h
        · right
          refine ⟨h1, ?_⟩
          have hne : ¬ r.1 = kv.1 := fun e => h1 (e ▸ hr)
          simp only [hne, decide_False] at h2
          exact h2
    · have hnot : ¬ (acc.lookup r.1).isSome = true :=
        fun h => hr ((lookup_isSome_iff acc r.1).mp h)
      rw [if_neg hnot]
      by_cases he : r.1 = kv.1
      · simp only [he, decide_True, List.mem_append, List.mem_singleton, List.map_append,
          List.map_cons, List.map_nil, not_or, Option.some.injEq]
        constructor
        · rintro ((h | h) | ⟨⟨_, h2⟩, _⟩)
          · exact Or.inl h
          · right
            exact ⟨by rw [← he]; exact hr, h.symm⟩
          · exact absurd trivial h2
        · rintro (h | ⟨_, h2⟩)
          · exact Or.inl (Or.inl h)
          · exact Or.inl (Or.inr h2.symm)
      · have he1 : ¬ kv.1 = r.1 := fun e => he e.symm
        simp only [he, decide_False, List.mem_append, List.mem_singleton, List.map_append,
          List.map_cons, List.map_nil, not_or]
        constructor
        · rintro ((h | h) | ⟨⟨h1, _⟩, h3⟩)
          · exact Or.inl h
          · exact absurd (congrArg Prod.fst h) he1
          · exact Or.inr ⟨h1, h3⟩
        · rintro (h | ⟨h1, h3⟩)
          · exact Or.inl (Or.inl h)
          · exact Or.inr ⟨⟨h1, he1⟩, h3⟩

theorem foldl_friendsStep_nodup (rows acc : List (Int × Time))
    (h : (acc.map Prod.fst).Nodup) : ((rows.foldl friendsStep acc).map Prod.fst).Nodup := by
  induction rows generalizing acc with
  | nil => simpa using h
  | cons r rs ih =>
    rw [List.foldl_cons]
    apply ih
    unfold friendsStep
    by_cases hr : r.1 ∈ acc.map Prod.fst
    · rw [if_pos ((lookup_isSome_iff acc r.1).mpr hr)]
      exact h
    · have hnot : ¬ (acc.lookup r.1).isSome = true :=
        fun h => hr ((lookup_isSome_iff acc r.1).mp h)
      rw [if_neg hnot, List.map_append, List.nodup_append]
      refine ⟨h, by simp, ?_⟩
      intro x hx hx1
      simp only [List.map_cons, List.map_nil, List.mem_singleton] at hx1
      exact hr (hx1 ▸ hx)

theorem friendsMap_mem (rows : List (Int × Time)) (kv : Int × Time) :
    kv ∈ friendsMap rows ↔ rows.find? (fun r => r.1 = kv.1) = some kv := by
  rw [friendsMap_eq_foldl, foldl_friendsStep_mem]
  simp

/-- In a list ordered by a relation, the first element satisfying a test is related to
every other element satisfying it. -/
theorem find?_first_of_pairwise {α : Type} (R : α → α → Prop) (p : α → Bool) (l : List α)
    (x : α) (hs : l.Pairwise R) (hf : l.find? p = some x) :
    ∀ y ∈ l, p y = true → y = x ∨ R x y := by
  induction l with
  | nil => simp at hf
  | cons a as ih =>
    rw [List.pairwise_cons] at hs
    rw [List.find?_cons] at hf
    intro y hy hpy
    cases hpa : p a with
    | true =>
      rw [hpa] at hf
      injection hf with hf
      subst hf
      rcases List.mem_cons.mp hy with h | h
      · exact Or.inl h
      · exact Or.inr (hs.1 y h)
    | false =>
      rw [hpa] at hf
      rcases List.mem_cons.mp hy with h | h
      · rw [h, hpa] at hpy
        exact absurd hpy (by simp)
      · exact ih hs.2 hf y h hpy

/-- The friend-list query returns its rows newest first. -/
theorem friendRows_sorted (db : DB) (userID : Int) :
    (friendRows db userID).Pairwise newerFirst :=
  List.sorted_insertionSort newerFirst _

theorem friendsList_mem (rows : List (Int × Time)) (f : Friend) :
    f ∈ friendsList rows ↔ (f.ID, f.CreatedAt) ∈ friendsMap rows := by
  unfold friendsList
  rw [List.mem_map]
  constructor
  · rintro ⟨kv, hkv, rfl⟩
    exact hkv
  · intro h
    exact ⟨(f.ID, f.CreatedAt), h, rfl⟩

theorem friendsList_ids (rows : List (Int × Time)) :
    (friendsList rows).map Friend.ID = (friendsMap rows).map Prod.fst := by
  unfold friendsList
  rw [List.map_map]
  rfl

theorem friendsMap_keys (rows : List (Int × Time)) (id : Int) :
    id ∈ (friendsMap rows).map Prod.fst ↔ id ∈ rows.map Prod.fst := by
  constructor
  · intro h
    obtain ⟨kv, hkv, rfl⟩ := List.mem_map.mp h
    exact List.mem_map.mpr
      ⟨kv, List.mem_of_find?_eq_some ((friendsMap_mem rows kv).mp hkv), rfl⟩
  · intro h
    obtain ⟨r, hr, rfl⟩ := List.mem_map.mp h
    cases hf : rows.find? (fun x => x.1 = r.1) with
    | none =>
      rw [List.find?_eq_none] at hf
      exact absurd (by simp) (hf r hr)
    | some kv =>
      have hkey : kv.1 = r.1 := by simpa using List.find?_some hf
      have hmem : kv ∈ friendsMap rows := by
        rw [friendsMap_mem, hkey]
        exact hf
      exact List.mem_map.mpr ⟨kv, hmem, hkey⟩

/-- The claim C10 as written fails: for the rows `(2, 10), (2, 5)`, newest first, the friend
list keeps the timestamp 10 for friend 2, which is not the earliest of that friend's rows. -/
theorem friendsList_not_earliest :
    friendRows ⟨[], [⟨1, 2, 5⟩, ⟨1, 2, 10⟩], [], [], []⟩ 1 = [(2, 10), (2, 5)]
    ∧ List.Pairwise newerFirst [((2 : Int), (10 : Time)), (2, 5)]
    ∧ friendsList [(2, 10), (2, 5)] = [⟨2, 10⟩]
    ∧ ¬ (∀ f ∈ friendsList [(2, 10), (2, 5)],
          ∀ r ∈ [((2 : Int), (10 : Time)), (2, 5)], r.1 = f.ID → f.CreatedAt ≤ r.2) := by
  refine ⟨by decide, by decide, by decide, ?_⟩
  intro h
  exact absurd (h ⟨2, 10⟩ (by decide) (2, 5) (by decide) rfl) (by decide)

/-- C10 (amended): for rows ordered newest first, the friend list, in whatever order the map
is iterated, holds each friend id of the rows exactly once, and the timestamp kept for an id
is that of the first row returned for it, which is the latest among that friend's rows. -/
theorem friendsList_latest (rows : List (Int × Time)) (fs : List Friend)
    (hsorted : rows.Pairwise newerFirst) (hperm : fs.Perm (friendsList rows)) :
    (fs.map Friend.ID).Nodup
    ∧ (∀ id, id ∈ fs.map Friend.ID ↔ id ∈ rows.map Prod.fst)
    ∧ ∀ f ∈ fs,
        rows.find? (fun r => r.1 = f.ID) = some (f.ID, f.CreatedAt)
        ∧ (f.ID, f.CreatedAt) ∈ rows
        ∧ ∀ r ∈ rows, r.1 = f.ID → r.2 ≤ f.CreatedAt := by
  refine ⟨?_, ?_, ?_⟩
  · rw [(hperm.map Friend.ID).nodup_iff, friendsList_ids]
    exact foldl_friendsStep_nodup rows [] (by simp)
  · intro id
    rw [(hperm.map Friend.ID).mem_iff, friendsList_ids]
    exact friendsMap_keys rows id
  · intro f hf
    have hmem : (f.ID, f.CreatedAt) ∈ friendsMap rows :=
      (friendsList_mem rows f).mp (hperm.mem_iff.mp hf)
    have hfind := (friendsMap_mem rows (f.ID, f.CreatedAt)).mp hmem
    refine ⟨hfind, List.mem_of_find?_eq_some hfind, fun r hr hid => ?_⟩
    rcases find?_first_of_pairwise newerFirst _ rows _ hsorted hfind r hr (by simpa using hid)
      with h | h
    · rw [h]
    · exact h

/-- C10 (amended) at the rows `(2, 10), (3, 7), (2, 5)`. -/
theorem friendsList_latest_witness :
    (((friendsList [(2, 10), (3, 7), (2, 5)]).map Friend.ID).Nodup)
    ∧ ∀ f ∈ friendsList [(2, 10), (3, 7), (2, 5)],
        ∀ r ∈ [((2 : Int), (10 : Time)), (3, 7), (2, 5)], r.1 = f.ID → r.2 ≤ f.CreatedAt :=
  have h := friendsList_latest [(2, 10), (3, 7), (2, 5)] (friendsList [(2, 10), (3, 7), (2, 5)])
    (by decide) (List.Perm.refl _)
  ⟨h.1, fun f hf => (h.2.2 f hf).2.2⟩

/-! ### Footprints -/

theorem replaceFootprint_pair (fps : List FootprintRow) (o v : Int) (t : Time) :
    (replaceFootprint fps o v t).filter (fun f => f.user_id = o ∧ f.owner_id = v)
      = [⟨o, v, t⟩] := by
  unfold replaceFootprint
  rw [List.filter_append, List.filter_filter]
  have h1 : fps.filter (fun a => (decide (a.user_id = o ∧ a.owner_id = v)
      && decide ¬ (a.user_id = o ∧ a.owner_id = v))) = [] := by
    rw [List.filter_eq_nil_iff]
    intro a _
    by_cases h : a.user_id = o ∧ a.owner_id = v <;> simp [h]
  rw [h1]
  simp

theorem replaceFootprint_others (fps : List FootprintRow) (o v : Int) (t : Time) :
    (replaceFootprint fps o v t).filter (fun f => ¬ (f.user_id = o ∧ f.owner_id = v))
      = fps.filter (fun f => ¬ (f.user_id = o ∧ f.owner_id = v)) := by
  unfold replaceFootprint
  rw [List.filter_append, List.filter_filter]
  simp

/-- The run of `markFootprint` for a resolved visitor on the page of somebody else. -/
theorem markFootprint_other (sess : Option Int) (o : Int) (s s1 : St) (viewer : User)
    (h : getCurrentUser sess s = (.ok (some viewer), s1)) (hne : viewer.ID ≠ o) :
    markFootprint sess o s =
      (.ok (), { s1 with db := { s1.db with
        footprints := replaceFootprint s.db.footprints o viewer.ID s.now } }) := by
  have hs1 : s1 = (getCurrentUser sess s).2 := by rw [h]
  have hdb : s1.db = s.db := by rw [hs1]; exact (getCurrentUser_db _ _).1
  have hnow : s1.now = s.now := by rw [hs1]; exact (getCurrentUser_db _ _).2
  simp only [markFootprint, h, hne, ne_eq, not_false_eq_true, if_true, hdb, hnow]

/-- C11: for a resolved visitor `viewer` and a visited id `o`, `markFootprint` leaves the
state after the session lookup, the `footprints` table included, unchanged when the
visitor is `o`; otherwise the resulting table holds exactly one record of the pair, stamped
with the clock reading, every record of another pair is as before and no other table
changes; hence a second visit, at any clock reading, again leaves exactly one record of
the pair, with the time of that second visit. -/
theorem markFootprint_upsert (sess : Option Int) (o : Int) (s s1 : St) (viewer : User)
    (h : getCurrentUser sess s = (.ok (some viewer), s1)) :
    (viewer.ID = o →
      markFootprint sess o s = (.ok (), s1) ∧ s1.db = s.db)
    ∧ (viewer.ID ≠ o →
      (markFootprint sess o s).1 = .ok ()
      ∧ (markFootprint sess o s).2.db.footprints.filter
            (fun f => f.user_id = o ∧ f.owner_id = viewer.ID) = [⟨o, viewer.ID, s.now⟩]
      ∧ (markFootprint sess o s).2.db.footprints.filter
            (fun f => ¬ (f.user_id = o ∧ f.owner_id = viewer.ID))
          = s.db.footprints.filter (fun f => ¬ (f.user_id = o ∧ f.owner_id = viewer.ID))
      ∧ (markFootprint sess o s).2.db.users = s.db.users
      ∧ (markFootprint sess o s).2.db.relations = s.db.relations
      ∧ (markFootprint sess o s).2.db.entries = s.db.entries
      ∧ (markFootprint sess o s).2.db.comments = s.db.comments
      ∧ ∀ (s2 s3 : St) (viewer2 : User),
          getCurrentUser sess s2 = (.ok (some viewer2), s3) → viewer2.ID = viewer.ID →
          s2.db.footprints = (markFootprint sess o s).2.db.footprints →
          (markFootprint sess o s2).2.db.footprints.filter
            (fun f => f.user_id = o ∧ f.owner_id = viewer.ID)
              = [⟨o, viewer.ID, s2.now⟩]) := by
  have hs1 : s1 = (getCurrentUser sess s).2 := by rw [h]
  have hdb : s1.db = s.db := by rw [hs1]; exact (getCurrentUser_db _ _).1
  constructor
  · intro he
    refine ⟨?_, hdb⟩
    simp only [markFootprint, h, he, ne_eq, not_true_eq_false, if_false]
  · intro hne
    rw [markFootprint_other sess o s s1 viewer h hne]
    have hu : s1.db.users = s.db.users := congrArg DB.users hdb
    have hr : s1.db.relations = s.db.relations := congrArg DB.relations hdb
    have he : s1.db.entries = s.db.entries := congrArg DB.entries hdb
    have hc : s1.db.comments = s.db.comments := congrArg DB.comments hdb
    refine ⟨rfl, replaceFootprint_pair _ _ _ _, replaceFootprint_others _ _ _ _,
      hu, hr, he, hc, ?_⟩
    intro s2 s3 viewer2 h2 hid _
    rw [markFootprint_other sess o s2 s3 viewer2 h2 (by rw [hid]; exact hne), hid]
    exact replaceFootprint_pair _ _ _ _

/-- C11 at `world0`: user 2 visits user 1 at the clock readings 5 and 9; one record is
left, with the time 9. -/
theorem markFootprint_upsert_witness :
    (markFootprint (some 2) 1 ⟨world0, none⟩).2.db.footprints = [⟨1, 2, 5⟩]
    ∧ (markFootprint (some 2) 1
        ⟨{ (markFootprint (some 2) 1 ⟨world0, none⟩).2.toWorld with now := 9 }, none⟩
        ).2.db.footprints.filter (fun f => f.user_id = 1 ∧ f.owner_id = 2) = [⟨1, 2, 9⟩] :=
  ⟨rfl,
   ((markFootprint_upsert (some 2) 1 ⟨world0, none⟩ _ ⟨2, "bob", "Bob", "bob@example.com"⟩
      rfl).2 (by decide)).2.2.2.2.2.2.2
      ⟨{ (markFootprint (some 2) 1 ⟨world0, none⟩).2.toWorld with now := 9 }, none⟩ _
      ⟨2, "bob", "Bob", "bob@example.com"⟩ rfl rfl rfl⟩

/-! ### Recovery -/

/-- The default case of the recovery for a value that implements `error` and is none of
the three sentinels. -/
theorem recovery_other_error (rcv : Recovered) (sess : Option Int)
    (herr : rcv.isError = true) (h1 : rcv ≠ .error .ErrAuthentication)
    (h2 : rcv ≠ .error .ErrPermissionDenied) (h3 : rcv ≠ .error .ErrContentNotFound) :
    ∃ msg, recovery rcv sess = (.ok (.httpError msg StatusInternalServerError), sess) := by
  cases rcv with
  | error e =>
    cases e with
    | ErrAuthentication => exact absurd rfl h1
    | ErrPermissionDenied => exact absurd rfl h2
    | ErrContentNotFound => exact absurd rfl h3
    | other msg => exact ⟨msg, rfl⟩
  | runtimeError msg => exact ⟨msg, rfl⟩
  | string s => simp [Recovered.isError] at herr
  | value => simp [Recovered.isError] at herr

/-- For a recovered value that is no `error` (a `string`, say) the assertion
`rcv.(error)` of the default case panics: the deferred function itself fails. -/
theorem recovery_not_error (rcv : Recovered) (sess : Option Int)
    (h : rcv.isError = false) : ∃ p, recovery rcv sess = (.error p, sess) := by
  cases rcv with
  | error e => simp [Recovered.isError] at h
  | runtimeError msg => simp [Recovered.isError] at h
  | string s => exact ⟨_, rfl⟩
  | value => exact ⟨_, rfl⟩

theorem myHandler_recovered {α : Type} (fn : World → Except Recovered α × World)
    (sess : Option Int) (w w1 : World) (rcv : Recovered) (reply : Reply) (sess1 : Option Int)
    (h : fn w = (.error rcv, w1)) (hr : recovery rcv sess = (.ok reply, sess1)) :
    myHandler fn sess w = (.ok (.inr reply), sess1, w1) := by
  simp only [myHandler, h, hr]

/-- C12: when the wrapped handler panics with `ErrAuthentication`, `ErrPermissionDenied`
or `ErrContentNotFound`, `myHandler` answers with the status 401, 403 and 404
respectively (the session value being deleted in the first case); the three codes are
pairwise distinct, so a permission denial never carries the not-found code; and for
every other recovered value that is an `error` it answers `http.Error` with status 500,
the deferred function returning normally. -/
theorem myHandler_codes {α : Type} (fn : World → Except Recovered α × World)
    (sess : Option Int) (w w1 : World) (rcv : Recovered) (h : fn w = (.error rcv, w1)) :
    (rcv = .error .ErrAuthentication →
      myHandler fn sess w =
        (.ok (.inr (.render 401 "login.html" "ログインに失敗しました")), none, w1))
    ∧ (rcv = .error .ErrPermissionDenied →
      myHandler fn sess w =
        (.ok (.inr (.render 403 "error.html" "友人のみしかアクセスできません")), sess, w1)
      ∧ ∀ reply, (myHandler fn sess w).1 = .ok (.inr reply) → reply.status ≠ StatusNotFound)
    ∧ (rcv = .error .ErrContentNotFound →
      myHandler fn sess w =
        (.ok (.inr (.render 404 "error.html" "要求されたコンテンツは存在しません")), sess, w1))
    ∧ (rcv.isError = true → rcv ≠ .error .ErrAuthentication →
        rcv ≠ .error .ErrPermissionDenied → rcv ≠ .error .ErrContentNotFound →
        ∃ msg, myHandler fn sess w = (.ok (.inr (.httpError msg 500)), sess, w1))
    ∧ (StatusUnauthorized ≠ StatusForbidden ∧ StatusForbidden ≠ StatusNotFound
        ∧ StatusUnauthorized ≠ StatusNotFound) := by
  refine ⟨fun hr => ?_, fun hr => ?_, fun hr => ?_, fun herr h1 h2 h3 => ?_, ?_⟩
  · subst hr
    exact myHandler_recovered fn sess w w1 _ _ _ h rfl
  · subst hr
    have hm := myHandler_recovered fn sess w w1 _ _ _ h
      (rfl : recovery (.error .ErrPermissionDenied) sess = _)
    refine ⟨hm, fun reply hreply => ?_⟩
    rw [hm] at hreply
    injection hreply with hreply
    injection hreply with hreply
    subst hreply
    decide
  · subst hr
    exact myHandler_recovered fn sess w w1 _ _ _ h rfl
  · obtain ⟨msg, hmsg⟩ := recovery_other_error rcv sess herr h1 h2 h3
    exact ⟨msg, myHandler_recovered fn sess w w1 _ _ _ h hmsg⟩
  · decide

/-- C12 at `world0`: the request of user 2 for the private entry 7 is answered with 403,
and a handler panicking with a store error is answered with 500. -/
theorem myHandler_codes_witness :
    myHandler (wrapped (GetEntry (some 2) 7)) (some 2) world0 =
      (.ok (.inr (.render 403 "error.html" "友人のみしかアクセスできません")), some 2,
        (GetEntry (some 2) 7 world0).2)
    ∧ ∃ msg, myHandler (fun w => ((.error (.error (.other "bad connection")) :
          Except Recovered Response), w)) (some 2) world0
        = (.ok (.inr (.httpError msg 500)), some 2, world0) :=
  ⟨((myHandler_codes (wrapped (GetEntry (some 2) 7)) (some 2) world0 _
      (.error .ErrPermissionDenied) rfl).2.1 rfl).1,
   (myHandler_codes (fun w => ((.error (.error (.other "bad connection")) :
        Except Recovered Response), w)) (some 2) world0 world0
      (.error (.other "bad connection")) rfl).2.2.2.1 rfl (by decide) (by decide) (by decide)⟩

/-! ### Own entries of the home page -/

theorem scanEntries_ok (rows : List EntryRow) (es : List Entry)
    (h : scanEntries rows = .ok es) :
    es.map Entry.ID = rows.map EntryRow.id
    ∧ es.map Entry.CreatedAt = rows.map EntryRow.created_at
    ∧ es.map Entry.UserID = rows.map EntryRow.user_id := by
  induction rows generalizing es with
  | nil =>
    simp only [scanEntries] at h
    injection h with h
    subst h
    exact ⟨rfl, rfl, rfl⟩
  | cons r rs ih =>
    unfold scanEntries at h
    cases he : entryFromRow r with
    | error e => rw [he] at h; simp at h
    | ok entry =>
      rw [he] at h
      dsimp only at h
      cases hs : scanEntries rs with
      | error e => rw [hs] at h; simp at h
      | ok rest =>
        rw [hs] at h
        dsimp only at h
        injection h with h
        subst h
        have hr := ih rest hs
        have hentry : entry.ID = r.id ∧ entry.CreatedAt = r.created_at
            ∧ entry.UserID = r.user_id := by
          unfold entryFromRow at he
          cases hb : splitBody r.body with
          | error e => rw [hb] at he; simp at he
          | ok tc =>
            rw [hb] at he
            dsimp only at he
            injection he with he
            subst he
            exact ⟨rfl, rfl, rfl⟩
        simp only [List.map_cons, hentry.1, hentry.2.1, hentry.2.2, hr.1, hr.2.1, hr.2.2,
          and_self]

/-- The claim C13 as written fails: user 1 has six entries, created at the instants 1 to 6;
the own-entries section holds those of the instants 1 to 5, and the most recent entry, of
the instant 6, is left out although it is newer than every listed entry. -/
theorem ownEntries_not_most_recent :
    (ownEntryRows sixEntries 1).map EntryRow.created_at = [1, 2, 3, 4, 5]
    ∧ (∃ es, ownEntries sixEntries 1 = .ok es ∧ es.map Entry.CreatedAt = [1, 2, 3, 4, 5])
    ∧ ¬ (∀ y ∈ sixEntries.entries.filter (fun r => r.user_id = 1),
          y ∉ ownEntryRows sixEntries 1 →
          ∀ x ∈ ownEntryRows sixEntries 1, y.created_at ≤ x.created_at) := by
  refine ⟨by decide, ⟨_, rfl, by decide⟩, ?_⟩
  intro h
  exact absurd (h ⟨6, 1, 0, "f\nx", 6⟩ (by decide) (by decide) ⟨1, 1, 0, "a\nx", 1⟩ (by decide))
    (by decide)

/-- C13 (amended): the own-entries section consists of the 5 entries of the user with the
earliest creation times (all of them when there are fewer than 5), listed oldest first:
the rows of the query are at most five, ordered by ascending `created_at`, together with
some remaining rows they make up the entries of the user, and no remaining row is older
than a listed one; the slice handed to `render`, when every body decodes, lists these rows
in this order. -/
theorem ownEntries_oldest (db : DB) (userID : Int) :
    (ownEntryRows db userID).length
      = min 5 (db.entries.filter (fun r => r.user_id = userID)).length
    ∧ (ownEntryRows db userID).Pairwise olderFirst
    ∧ (∃ rest, (ownEntryRows db userID ++ rest).Perm
          (db.entries.filter (fun r => r.user_id = userID))
        ∧ ∀ x ∈ ownEntryRows db userID, ∀ y ∈ rest, x.created_at ≤ y.created_at)
    ∧ (∀ es, ownEntries db userID = .ok es →
        es.map Entry.ID = (ownEntryRows db userID).map EntryRow.id
        ∧ es.map Entry.CreatedAt = (ownEntryRows db userID).map EntryRow.created_at
        ∧ es.Pairwise (fun a b => a.CreatedAt ≤ b.CreatedAt)) := by
  have hsorted : ((db.entries.filter (fun r => r.user_id = userID)).insertionSort
      olderFirst).Pairwise olderFirst := List.sorted_insertionSort olderFirst _
  have hperm := List.perm_insertionSort olderFirst
    (db.entries.filter (fun r => r.user_id = userID))
  have hrows : (ownEntryRows db userID).Pairwise olderFirst :=
    hsorted.sublist (List.take_sublist 5 _)
  refine ⟨?_, hrows, ?_, ?_⟩
  · unfold ownEntryRows
    rw [List.length_take, hperm.length_eq]
  · refine ⟨((db.entries.filter (fun r => r.user_id = userID)).insertionSort
      olderFirst).drop 5, ?_, ?_⟩
    · unfold ownEntryRows
      rw [List.take_append_drop]
      exact hperm
    · have hsplit := hsorted
      rw [← List.take_append_drop 5 ((db.entries.filter
        (fun r => r.user_id = userID)).insertionSort olderFirst), List.pairwise_append]
        at hsplit
      exact hsplit.2.2
  · intro es hes
    have h := scanEntries_ok _ es hes
    refine ⟨h.1, h.2.1, ?_⟩
    have hm : (es.map Entry.CreatedAt).Pairwise (fun a b => a ≤ b) := by
      rw [h.2.1, List.pairwise_map]
      exact hrows
    rw [List.pairwise_map] at hm
    exact hm

/-- C13 (amended) at `sixEntries`: the section lists the entries of the instants 1 to 5. -/
theorem ownEntries_oldest_witness :
    (ownEntryRows sixEntries 1).length = 5
    ∧ ∃ es, ownEntries sixEntries 1 = .ok es
        ∧ es.map Entry.CreatedAt = (ownEntryRows sixEntries 1).map EntryRow.created_at
        ∧ es.Pairwise (fun a b => a.CreatedAt ≤ b.CreatedAt) :=
  ⟨(ownEntries_oldest sixEntries 1).1.trans (by decide),
   ⟨_, rfl, ((ownEntries_oldest sixEntries 1).2.2.2 _ rfl).2⟩⟩

/-! ### Posting an entry -/

theorem indexNewline_append (a b : List Char) (h : '\n' ∉ a) :
    indexNewline (a ++ '\n' :: b) = some a.length := by
  induction a with
  | nil => simp [indexNewline]
  | cons c cs ih =>
    have hc : ¬ c = '\n' := fun e => h (by simp [e])
    have hcs : '\n' ∉ cs := fun e => h (List.mem_cons_of_mem _ e)
    rw [List.cons_append]
    unfold indexNewline
    rw [if_neg hc, ih hcs]
    rfl

/-- The split of `t ++ "\n" ++ c` for a `t` without newline gives back `t` and `c`. -/
theorem splitBody_append (t c : String) (h : '\n' ∉ t.data) :
    splitBody (t ++ "\n" ++ c) = .ok (t, c) := by
  have hd : (t ++ "\n" ++ c).data = t.data ++ '\n' :: c.data := by
    simp only [String.data_append]
    rw [List.append_assoc]
    rfl
  have hi := indexNewline_append t.data c.data h
  have htake : (t.data ++ '\n' :: c.data).take t.data.length = t.data := by
    rw [List.take_left']
    rfl
  have hdrop : (t.data ++ '\n' :: c.data).drop (t.data.length + 1) = c.data := by
    rw [← List.drop_drop, List.drop_left']
    · rfl
    · rfl
  simp only [splitBody, SplitN2, hd, hi, htake, hdrop, List.getElem?_cons_zero,
    List.getElem?_cons_succ]

theorem entryTitle_no_newline (title : String) (h : '\n' ∉ title.data) :
    '\n' ∉ (entryTitle title).data := by
  unfold entryTitle
  split
  · decide
  · exact h

theorem entryBody_has_newline (title content : String) :
    '\n' ∈ (entryBody title content).data := by
  simp [entryBody, String.data_append]

/-- The run of `PostEntry` for a resolved session user: one row is appended. -/
theorem PostEntry_insert (sess : Option Int) (title content priv : String) (w : World)
    (user : User) (s1 : St) (h : getCurrentUser sess ⟨w, none⟩ = (.ok (some user), s1)) :
    PostEntry sess title content priv w =
      (.ok (.redirect ("/diary/entries/" ++ user.AccountName) 303),
        { s1.toWorld with
          db := insertEntry w.db user.ID (if priv = "" then 0 else 1)
                  (entryBody title content) w.now }) := by
  have hs1 : s1 = (getCurrentUser sess ⟨w, none⟩).2 := by rw [h]
  have hdb : s1.db = w.db := by rw [hs1]; exact (getCurrentUser_db _ _).1
  have hnow : s1.now = w.now := by rw [hs1]; exact (getCurrentUser_db _ _).2
  have hagain := getCurrentUser_again sess _ s1 user h
  simp only [PostEntry, authenticated, h, hagain, hdb, hnow]

theorem entryFromRow_of_split (r : EntryRow) (t c : String)
    (h : splitBody r.body = .ok (t, c)) :
    entryFromRow r = .ok ⟨r.id, r.user_id, r.priv == 1, t, c, r.created_at⟩ := by
  simp only [entryFromRow, h]

/-- C14: the body stored by `PostEntry` (the title, or the default title when the form
value is empty, then a newline, then the content) always holds a newline and the split
succeeds on it; when the submitted title holds no newline the split gives back exactly the
stored title and exactly the submitted content, newlines of the content included; and
for a resolved session user `PostEntry` appends one row with this body, which decodes to
an entry. -/
theorem entryBody_splits (title content : String) :
    '\n' ∈ (entryBody title content).data
    ∧ (∃ t c, splitBody (entryBody title content) = .ok (t, c))
    ∧ ('\n' ∉ title.data →
        splitBody (entryBody title content) = .ok (entryTitle title, content))
    ∧ (title = "" → entryTitle title = "タイトルなし")
    ∧ (title ≠ "" → entryTitle title = title)
    ∧ (∀ (sess : Option Int) (priv : String) (w : World) (user : User) (s1 : St),
        getCurrentUser sess ⟨w, none⟩ = (.ok (some user), s1) →
        ∃ row, (PostEntry sess title content priv w).2.db.entries = w.db.entries ++ [row]
          ∧ row.user_id = user.ID ∧ row.body = entryBody title content
          ∧ (∃ e, entryFromRow row = .ok e)
          ∧ ('\n' ∉ title.data →
              ∃ e, entryFromRow row = .ok e ∧ e.Title = entryTitle title
                ∧ e.Content = content)) := by
  have hnl := entryBody_has_newline title content
  have hsplit : ∃ t c, splitBody (entryBody title content) = .ok (t, c) := by
    obtain ⟨t, c, h, _⟩ := splitBody_newline _ hnl
    exact ⟨t, c, h⟩
  have hexact : '\n' ∉ title.data →
      splitBody (entryBody title content) = .ok (entryTitle title, content) :=
    fun h => splitBody_append (entryTitle title) content (entryTitle_no_newline title h)
  refine ⟨hnl, hsplit, hexact, fun h => by simp [entryTitle, h],
    fun h => by simp [entryTitle, h], ?_⟩
  intro sess priv w user s1 h
  rw [PostEntry_insert sess title content priv w user s1 h]
  refine ⟨_, rfl, rfl, rfl, ?_, ?_⟩
  · obtain ⟨t, c, hs⟩ := hsplit
    exact ⟨_, entryFromRow_of_split _ t c hs⟩
  · intro hno
    exact ⟨_, entryFromRow_of_split _ _ _ (hexact hno), rfl, rfl⟩

/-- C14 at `world0`: user 1 posts an empty title with a content of two lines. -/
theorem entryBody_splits_witness :
    splitBody (entryBody "" "first\nsecond") = .ok ("タイトルなし", "first\nsecond")
    ∧ ∃ row, (PostEntry (some 1) "" "first\nsecond" "" world0).2.db.entries
          = world0.db.entries ++ [row]
        ∧ ∃ e, entryFromRow row = .ok e ∧ e.Title = entryTitle ""
          ∧ e.Content = "first\nsecond" :=
  ⟨((entryBody_splits "" "first\nsecond").2.2.1 (by decide)).trans rfl,
   ((entryBody_splits "" "first\nsecond").2.2.2.2.2 (some 1) "" world0
      ⟨1, "alice", "Alice", "alice@example.com"⟩ _ rfl).imp
     (fun _ hrow => ⟨hrow.1, hrow.2.2.2.2 (by decide)⟩)⟩

end Isucon5
